import Mathlib

/-!
Verification of `layout/style/FontFaceSetImpl.cpp` (web-font resolution and
aggregate-loading coordinator).  The C++ code is shallowly embedded: pure
helpers become Lean functions, the mutable `FontFaceSetImpl` state becomes an
explicit record threaded through the operations, and collaborator classes that
are not part of this translation unit (`gfxUserFontSet` family buckets,
`gfxUserFontEntry::UpdateAttributes`, `FlushUserFontSet`, the Servo parser)
are modelled from the specification where noted.
-/

namespace FontFaceSet

/-! ## Basic enumerations -/

/-- Per-face load status (`FontFaceLoadStatus`). -/
inductive FontFaceLoadStatus where
  | Unloaded
  | Loading
  | Loaded
  | Error
deriving DecidableEq, Repr

/-- Aggregate load status of the whole set (`FontFaceSetLoadStatus`). -/
inductive FontFaceSetLoadStatus where
  | Loading
  | Loaded
deriving DecidableEq, Repr

/-- Stylesheet origin (`StyleOrigin`). -/
inductive StyleOrigin where
  | Author
  | User
  | UserAgent
deriving DecidableEq, Repr

/-- The `StyleFontFaceSourceFormatKeyword`: normalized format hint of a source.
`None` means "no hint given"; `Unknown` means "a hint was given but not
recognized". -/
inductive FormatKeyword where
  | None
  | Collection
  | EmbeddedOpentype
  | Opentype
  | Svg
  | Truetype
  | Woff
  | Woff2
  | Unknown
deriving DecidableEq, Repr

/-- The `gfxFontFaceSrc::SourceType`. -/
inductive SourceType where
  | eSourceType_Local
  | eSourceType_URL
  | eSourceType_Buffer
deriving DecidableEq, Repr

/-! ## Descriptor resolver (`GetWeightRangeForDescriptor` & friends)

Numeric font values (weights, stretch percentages, oblique angles) are
carried as integers; the C++ code only transports them (`FromFloat` on the
descriptor's stored components), never computes with them, so the carrier
type is irrelevant to the control flow being verified. -/

/-- The `gfxFontEntry::RangeFlags` restricted to the bits this file sets. -/
structure RangeFlags where
  autoWeight : Bool
  autoStretch : Bool
  autoSlantStyle : Bool
deriving DecidableEq, Repr

/-- The `gfxFontEntry::RangeFlags::eNoFlags`. -/
def RangeFlags.eNoFlags : RangeFlags :=
  { autoWeight := false, autoStretch := false, autoSlantStyle := false }

/-- The `StyleComputedFontStyleDescriptor`: the three slant kinds. -/
inductive StyleComputedFontStyleDescriptor where
  | Normal
  | Italic
  | Oblique (lo hi : Int)
deriving DecidableEq, Repr

/-- One endpoint of a slant-style range (`FontSlantStyle`). -/
inductive FontSlantStyle where
  | normal
  | italic
  | oblique (angle : Int)
deriving DecidableEq, Repr

/-- The `FontSlantStyle::NORMAL`. -/
def FontSlantStyle.NORMAL : FontSlantStyle := .normal

/-- The `FontSlantStyle::ITALIC`. -/
def FontSlantStyle.ITALIC : FontSlantStyle := .italic

/-- The `FontWeight::NORMAL` is weight 400. -/
def weightNORMAL : Int := 400

/-- The `FontStretch::NORMAL` is 100%. -/
def stretchNORMAL : Int := 100

/-- The `WeightRange` / `StretchRange`: an inclusive numeric range. -/
structure NumRange where
  min : Int
  max : Int
deriving DecidableEq, Repr

/-- Collapse a single value to a point range (one-argument range ctor). -/
def NumRange.single (v : Int) : NumRange := ⟨v, v⟩

/-- The `SlantStyleRange`. -/
structure SlantStyleRange where
  min : FontSlantStyle
  max : FontSlantStyle
deriving DecidableEq, Repr

/-- One-argument `SlantStyleRange` ctor. -/
def SlantStyleRange.single (v : FontSlantStyle) : SlantStyleRange := ⟨v, v⟩

/-- The `GetWeightRangeForDescriptor`: absent (`auto`) weight sets the
`eAutoWeight` flag and yields the NORMAL point range; a present range is
passed through with flags untouched.  The C++ accumulates flags through a
by-reference out-parameter; here the updated flags are returned. -/
def GetWeightRangeForDescriptor (aVal : Option (Int × Int))
    (aRangeFlags : RangeFlags) : NumRange × RangeFlags :=
  match aVal with
  | none => (NumRange.single weightNORMAL, { aRangeFlags with autoWeight := true })
  | some (lo, hi) => (⟨lo, hi⟩, aRangeFlags)

/-- The `GetStyleRangeForDescriptor`: absent (`auto`) slant sets the
`eAutoSlantStyle` flag and yields the NORMAL point range; otherwise the
three slant kinds are handled exhaustively (the C++ code after the switch is
guarded by `MOZ_ASSERT_UNREACHABLE`; in this embedding the match is total so
that code has no counterpart). -/
def GetStyleRangeForDescriptor (aVal : Option StyleComputedFontStyleDescriptor)
    (aRangeFlags : RangeFlags) : SlantStyleRange × RangeFlags :=
  match aVal with
  | none =>
      (SlantStyleRange.single FontSlantStyle.NORMAL,
       { aRangeFlags with autoSlantStyle := true })
  | some .Normal => (SlantStyleRange.single FontSlantStyle.NORMAL, aRangeFlags)
  | some .Italic => (SlantStyleRange.single FontSlantStyle.ITALIC, aRangeFlags)
  | some (.Oblique lo hi) => (⟨.oblique lo, .oblique hi⟩, aRangeFlags)

/-- The `GetStretchRangeForDescriptor`: absent (`auto`) stretch sets the
`eAutoStretch` flag and yields the NORMAL point range. -/
def GetStretchRangeForDescriptor (aVal : Option (Int × Int))
    (aRangeFlags : RangeFlags) : NumRange × RangeFlags :=
  match aVal with
  | none => (NumRange.single stretchNORMAL, { aRangeFlags with autoStretch := true })
  | some (lo, hi) => (⟨lo, hi⟩, aRangeFlags)

/-! ## Source list builder

`StyleFontFaceSourceListComponent` tokens and the `srcArray` construction
loop inside `FindOrCreateUserFontEntryFromFontFace` (lines 490-623).  URIs
are abstracted to identifiers; an unresolvable URL token (`url->GetURI()`
returning null) is a `Url none` component. -/

/-- Tech flags are opaque to this file; carried as a number. -/
abbrev TechFlags := Nat

/-- The `StyleFontFaceSourceTechFlags::Empty()`. -/
def TechFlags.empty : TechFlags := 0

/-- The `StyleFontFaceSourceListComponent`. -/
inductive SourceComponent where
  | Local (name : String)
  | Url (uri : Option Nat)
  | FormatHintKeyword (k : FormatKeyword)
  | FormatHintString (s : String)
  | TechFlagsToken (t : TechFlags)
deriving DecidableEq, Repr

/-- The `gfxFontFaceSrc`, restricted to the fields this file writes. -/
structure FontFaceSrc where
  mSourceType : SourceType
  mLocalName : String
  mURI : Option Nat
  mFormatHint : FormatKeyword
  mTechFlags : TechFlags
  mUseOriginPrincipal : Bool
deriving DecidableEq, Repr

/-- A freshly appended, not-yet-filled `gfxFontFaceSrc` (the stray-token arm
of the switch appends an element and never initializes it). -/
def FontFaceSrc.uninit : FontFaceSrc :=
  { mSourceType := .eSourceType_Local, mLocalName := "", mURI := none,
    mFormatHint := .None, mTechFlags := TechFlags.empty,
    mUseOriginPrincipal := false }

/-- ASCII lowercasing of one character, as `LowerCaseEqualsASCII` does. -/
def lowerAscii (c : Char) : Char :=
  if 'A' ≤ c ∧ c ≤ 'Z' then Char.ofNat (c.toNat + 32) else c

/-- The `nsACString::LowerCaseEqualsASCII`. -/
def lowerCaseEqualsASCII (s : String) (lit : String) : Bool :=
  s.data.map lowerAscii == lit.data

/-- The format-hint-string recognizer (lines 543-586): maps a free-form hint
string to a normalized keyword.  `variationsEnabled` is the
`layout.css.font-variations.enabled` pref; when set, the legacy
`*-variations` aliases are recognized, otherwise (and for any other
unrecognized string) the result is the explicit `Unknown` marker. -/
def parseFormatHintString (variationsEnabled : Bool) (s : String) :
    FormatKeyword :=
  if lowerCaseEqualsASCII s "woff" then .Woff
  else if lowerCaseEqualsASCII s "woff2" then .Woff2
  else if lowerCaseEqualsASCII s "opentype" then .Opentype
  else if lowerCaseEqualsASCII s "truetype" then .Truetype
  else if lowerCaseEqualsASCII s "truetype-aat" then .Truetype
  else if lowerCaseEqualsASCII s "embedded-opentype" then .EmbeddedOpentype
  else if lowerCaseEqualsASCII s "svg" then .Svg
  else if variationsEnabled then
    if lowerCaseEqualsASCII s "woff-variations" then .Woff
    else if lowerCaseEqualsASCII s "woff2-variations" then .Woff2
    else if lowerCaseEqualsASCII s "opentype-variations" then .Opentype
    else if lowerCaseEqualsASCII s "truetype-variations" then .Truetype
    else .Unknown
  else .Unknown

/-- The `Local` arm of the source loop: a local-name source record. -/
def localSrc (name : String) : FontFaceSrc :=
  { mSourceType := .eSourceType_Local, mLocalName := name, mURI := none,
    mFormatHint := .None, mTechFlags := TechFlags.empty,
    mUseOriginPrincipal := false }

/-- The `Url` arm of the source loop, after hint/tech consumption: a URL
source record.  User and user-agent origins carry the sheet principal. -/
def urlSrc (origin : StyleOrigin) (uri : Nat) (hint : FormatKeyword)
    (tech : TechFlags) : FontFaceSrc :=
  { mSourceType := .eSourceType_URL, mLocalName := "", mURI := some uri,
    mFormatHint := hint, mTechFlags := tech,
    mUseOriginPrincipal := origin = .User ∨ origin = .UserAgent }

/-- Emit one URL source, unless its URI did not resolve (in which case the
C++ code pops the element back off the array: "if URI not valid, omit from
src array"). -/
def emitUrlSrc (origin : StyleOrigin) (uri : Option Nat) (hint : FormatKeyword)
    (tech : TechFlags) (rest : List FontFaceSrc) : List FontFaceSrc :=
  match uri with
  | none => rest
  | some u => urlSrc origin u hint tech :: rest

/-- The `srcArray` construction loop (lines 493-622).  A format-hint token
directly following a `Url` token is consumed into that URL's record
(advancing the index past it); a tech-flags token following next is likewise
consumed; a `Url` token whose URI did not resolve is removed from the array
after its trailing tokens are consumed (`srcArray.RemoveLastElement`).  A
hint/tech token not directly after a `Url` is the `MOZ_ASSERT_UNREACHABLE`
arm: in a non-debug build the freshly appended element stays, uninitialized. -/
def buildSrcArray (variationsEnabled : Bool) (origin : StyleOrigin) :
    List SourceComponent → List FontFaceSrc
  | [] => []
  | .Local name :: rest => localSrc name :: buildSrcArray variationsEnabled origin rest
  | .Url uri :: .FormatHintKeyword k :: .TechFlagsToken t :: rest =>
      emitUrlSrc origin uri k t (buildSrcArray variationsEnabled origin rest)
  | .Url uri :: .FormatHintKeyword k :: rest =>
      emitUrlSrc origin uri k TechFlags.empty (buildSrcArray variationsEnabled origin rest)
  | .Url uri :: .FormatHintString s :: .TechFlagsToken t :: rest =>
      emitUrlSrc origin uri (parseFormatHintString variationsEnabled s) t
        (buildSrcArray variationsEnabled origin rest)
  | .Url uri :: .FormatHintString s :: rest =>
      emitUrlSrc origin uri (parseFormatHintString variationsEnabled s)
        TechFlags.empty (buildSrcArray variationsEnabled origin rest)
  | .Url uri :: .TechFlagsToken t :: rest =>
      emitUrlSrc origin uri .None t (buildSrcArray variationsEnabled origin rest)
  | .Url uri :: rest =>
      emitUrlSrc origin uri .None TechFlags.empty
        (buildSrcArray variationsEnabled origin rest)
  | .FormatHintKeyword _ :: rest =>
      FontFaceSrc.uninit :: buildSrcArray variationsEnabled origin rest
  | .FormatHintString _ :: rest =>
      FontFaceSrc.uninit :: buildSrcArray variationsEnabled origin rest
  | .TechFlagsToken _ :: rest =>
      FontFaceSrc.uninit :: buildSrcArray variationsEnabled origin rest

/-! ## Data model: descriptors, entries, set state -/

/-- The `StyleFontDisplay`. -/
inductive FontDisplay where
  | Auto
  | Block
  | Swap
  | Fallback
  | Optional
deriving DecidableEq, Repr

/-- The `NO_FONT_LANGUAGE_OVERRIDE`. -/
def NO_FONT_LANGUAGE_OVERRIDE : Nat := 0

/-- The normalized attribute set handed to
`FindOrCreateUserFontEntry` / `UpdateAttributes` (lines 397-463). -/
structure EntryAttributes where
  weight : NumRange
  stretch : NumRange
  italicStyle : SlantStyleRange
  featureSettings : List (Nat × Int)
  variationSettings : List (Nat × Int)
  languageOverride : Nat
  unicodeRanges : Option (List (Nat × Nat))
  fontDisplay : FontDisplay
  rangeFlags : RangeFlags
  ascentOverride : Int
  descentOverride : Int
  lineGapOverride : Int
  sizeAdjust : Int
deriving DecidableEq, Repr

/-- The view of a `FontFaceImpl` that `FontFaceSetImpl.cpp` reads.  The
`inFontFaceSet` flag is the face-side membership bit behind
`IsInFontFaceSet(this)` / `AddFontFaceSet` / `RemoveFontFaceSet`
(implemented in `FontFaceImpl.cpp`, modelled from the spec: a face is a
member of this one set or not). -/
structure FontFaceData where
  familyName : Option String
  hasRule : Bool
  status : FontFaceLoadStatus
  owner : Option Nat
  userFontEntry : Option Nat
  inFontFaceSet : Bool
  hasFontData : Bool
  sources : List SourceComponent
  fontWeight : Option (Int × Int)
  fontStretch : Option (Int × Int)
  fontStyle : Option StyleComputedFontStyleDescriptor
  fontDisplay : Option FontDisplay
  ascentOverride : Option Int
  descentOverride : Option Int
  lineGapOverride : Option Int
  sizeAdjust : Option Int
  featureSettings : List (Nat × Int)
  variationSettings : List (Nat × Int)
  languageOverride : Option Nat
  unicodeRange : Option (List (Nat × Nat))
deriving DecidableEq, Repr

/-- Attribute normalization performed by
`FindOrCreateUserFontEntryFromFontFace` before the existing-entry check
(lines 397-454): range flags accumulate across weight, stretch and style;
absent optional descriptors fall back to their defaults and sentinels
(`-1.0` metrics overrides, `1.0` size-adjust, display `Auto`). -/
def computeEntryAttributes (f : FontFaceData) : EntryAttributes :=
  let rangeFlags := RangeFlags.eNoFlags
  let wr := GetWeightRangeForDescriptor f.fontWeight rangeFlags
  let sr := GetStretchRangeForDescriptor f.fontStretch wr.2
  let ir := GetStyleRangeForDescriptor f.fontStyle sr.2
  { weight := wr.1
    stretch := sr.1
    italicStyle := ir.1
    featureSettings := f.featureSettings
    variationSettings := f.variationSettings
    languageOverride := f.languageOverride.getD NO_FONT_LANGUAGE_OVERRIDE
    unicodeRanges := f.unicodeRange
    fontDisplay := f.fontDisplay.getD .Auto
    rangeFlags := ir.2
    ascentOverride := f.ascentOverride.getD (-1)
    descentOverride := f.descentOverride.getD (-1)
    lineGapOverride := f.lineGapOverride.getD (-1)
    sizeAdjust := f.sizeAdjust.getD 1 }

/-- The `gfxUserFontEntry` as used here: normalized attributes, the source list,
the mutable `mFamilyName` tag ("" when detached from any family), and the
set of `FontFace` owners the entry reports via `FindFontFaceOwners`. -/
structure UserFontEntry where
  attrs : EntryAttributes
  srcList : List FontFaceSrc
  mFamilyName : String
  owners : List Nat
deriving DecidableEq, Repr

/-- Notifications dispatched to the owning context. -/
inductive NotifyEvent where
  | loadingStarted
  | loadingFinished
deriving DecidableEq, Repr

/-- The mutable state of one `FontFaceSetImpl` together with the
`gfxUserFontSet` registry it embeds.  `families` is the family-name →
entry-id registry, `entries` the entry store, `faces` the environment of
`FontFaceImpl` objects keyed by id, `mNonRuleFaces` the ordered record
list.  `ownerReadyPending` models `mOwner->ReadyPromiseIsPending()`;
`variationsEnabled` the `layout.css.font-variations.enabled` pref;
`events` the notifications dispatched so far. -/
structure SetState where
  families : List (String × List Nat)
  entries : List (Nat × UserFontEntry)
  nextEntryId : Nat
  faces : List (Nat × FontFaceData)
  mNonRuleFaces : List Nat
  mStatus : FontFaceSetLoadStatus
  mNonRuleFacesDirty : Bool
  userFontSetDirty : Bool
  mHasLoadingFontFaces : Bool
  mHasLoadingFontFacesIsDirty : Bool
  mDelayedLoadCheck : Bool
  ownerReadyPending : Bool
  variationsEnabled : Bool
  events : List NotifyEvent
deriving DecidableEq, Repr

/-- Keyed lookup in an association list (the hashtable `Get`). -/
def alookup {κ β : Type} [DecidableEq κ] (l : List (κ × β)) (k : κ) :
    Option β :=
  match l with
  | [] => none
  | p :: rest => if p.1 = k then some p.2 else alookup rest k

/-- Pointwise update of an association list at one key. -/
def updateAssoc {κ β : Type} [DecidableEq κ] (l : List (κ × β)) (k : κ)
    (g : β → β) : List (κ × β) :=
  match l with
  | [] => []
  | p :: rest => (if p.1 = k then (p.1, g p.2) else p) :: updateAssoc rest k g

/-- The `gfxUserFontFamily::RemoveFontEntry`, modelled from the spec: drop the
entry from the named family's ordered entry list. -/
def removeFontEntryFromFamily (families : List (String × List Nat))
    (fam : String) (eid : Nat) : List (String × List Nat) :=
  updateAssoc families fam fun l => l.filter (· ≠ eid)

/-- Insert an entry id into a family bucket, creating the family on first
use and preserving insertion order; a second insertion of the same id into
the same family is a no-op.  Modelled from the spec ("insertion order within
a family is preserved for matching priority"; an entry appears at most once). -/
def addFontEntryToFamily (families : List (String × List Nat))
    (fam : String) (eid : Nat) : List (String × List Nat) :=
  match alookup families fam with
  | none => families ++ [(fam, [eid])]
  | some l =>
      if eid ∈ l then families
      else updateAssoc families fam fun b => b ++ [eid]

/-- The `gfxUserFontSet::AddUserFontEntry`, modelled from the spec: attach the
entry to the named family (setting its `mFamilyName` tag). -/
def addUserFontEntry (fam : String) (eid : Nat) (s : SetState) : SetState :=
  { s with families := addFontEntryToFamily s.families fam eid
           entries := updateAssoc s.entries eid fun e => { e with mFamilyName := fam } }

/-- The `gfxUserFontEntry::UpdateAttributes`, modelled from the spec: overwrite
the entry's normalized attributes in place; the source list is untouched. -/
def updateEntryAttributes (eid : Nat) (attrs : EntryAttributes) (s : SetState) :
    SetState :=
  { s with entries := updateAssoc s.entries eid fun e => { e with attrs := attrs } }

/-- The `gfxUserFontSet::FindOrCreateUserFontEntry` on the creation path,
modelled from the spec (§4.3): construct a new entry from the normalized
attributes and source list and insert it into the named family's entry
list, preserving call order. -/
def createUserFontEntry (famName : String) (srcList : List FontFaceSrc)
    (attrs : EntryAttributes) (s : SetState) : Nat × SetState :=
  let eid := s.nextEntryId
  (eid,
   { s with
     entries := s.entries ++
       [(eid, { attrs := attrs, srcList := srcList, mFamilyName := famName,
                owners := [] })]
     families := addFontEntryToFamily s.families famName eid
     nextEntryId := eid + 1 })

/-- The single buffer source used when the descriptor carries embedded font
data (`HasFontData`, lines 481-488). -/
def bufferSrc : FontFaceSrc :=
  { mSourceType := .eSourceType_Buffer, mLocalName := "", mURI := none,
    mFormatHint := .None, mTechFlags := TechFlags.empty,
    mUseOriginPrincipal := false }

/-- The `FontFaceSetImpl::FindOrCreateUserFontEntryFromFontFace` (lines
391-635).  If the face already owns an entry, its attributes are updated in
place and, when the stored family name is non-empty and differs from the
requested one, the entry is removed from that family and its name tag
cleared; the same entry is returned.  Otherwise a source list is built
(single buffer source if the face has embedded data); an empty list yields
no entry; otherwise a new entry is created in the named family. -/
def FindOrCreateUserFontEntryFromFontFace (aFamilyName : String)
    (face : FontFaceData) (aOrigin : StyleOrigin) (s : SetState) :
    Option Nat × SetState :=
  let attrs := computeEntryAttributes face
  match face.userFontEntry with
  | some eid =>
      let s1 := updateEntryAttributes eid attrs s
      match alookup s1.entries eid with
      | none => (some eid, s1)
      | some ent =>
          if ent.mFamilyName ≠ "" ∧ ent.mFamilyName ≠ aFamilyName then
            let s2 :=
              match alookup s1.families ent.mFamilyName with
              | none => s1
              | some _ =>
                  { s1 with families :=
                      removeFontEntryFromFamily s1.families ent.mFamilyName eid }
            (some eid,
             { s2 with entries :=
                 updateAssoc s2.entries eid fun e => { e with mFamilyName := "" } })
          else (some eid, s1)
  | none =>
      let srcArray : List FontFaceSrc :=
        if face.hasFontData then [bufferSrc]
        else buildSrcArray s.variationsEnabled aOrigin face.sources
      if srcArray.isEmpty then (none, s)
      else
        let r := createUserFontEntry aFamilyName srcArray attrs s
        (some r.1, r.2)

/-! ## Loading status coordinator (lines 791-936)

Cross-thread dispatch collapses to inline invocation: whether
`OnLoadingStarted` / `OnLoadingFinished` runs synchronously or after a hop
to the owning thread, the state transformation is the same; the dispatched
notification is recorded in `events`. -/

/-- The status of the face behind a record id (records hold live pointers in
the C++; an absent id reads as `Unloaded` and is excluded by the theorems'
well-formedness hypotheses). -/
def faceStatus (s : SetState) (fid : Nat) : FontFaceLoadStatus :=
  match alookup s.faces fid with
  | some f => f.status
  | none => .Unloaded

/-- The `UpdateHasLoadingFontFaces` (lines 876-886): linear scan of the current
records with early exit on the first `Loading` face. -/
def UpdateHasLoadingFontFaces (s : SetState) : SetState :=
  { s with
    mHasLoadingFontFacesIsDirty := false
    mHasLoadingFontFaces :=
      s.mNonRuleFaces.any fun fid => faceStatus s fid = .Loading }

/-- The `HasLoadingFontFaces` (lines 888-894): recompute the cached flag only
when its dirty bit is set. -/
def HasLoadingFontFaces (s : SetState) : Bool × SetState :=
  if s.mHasLoadingFontFacesIsDirty then
    let s1 := UpdateHasLoadingFontFaces s
    (s1.mHasLoadingFontFaces, s1)
  else (s.mHasLoadingFontFaces, s)

/-- The `OnLoadingStarted` (lines 869-874): the owner dispatches the `loading`
event and replaces the ready promise with a fresh pending one
(`DispatchLoadingEventAndReplaceReadyPromise`, modelled from the spec). -/
def OnLoadingStarted (s : SetState) : SetState :=
  { s with ownerReadyPending := true
           events := s.events ++ [NotifyEvent.loadingStarted] }

/-- The `OnLoadingFinished` (lines 931-936): the owner resolves the ready
promise (`MaybeResolve`, modelled from the spec). -/
def OnLoadingFinished (s : SetState) : SetState :=
  { s with ownerReadyPending := false
           events := s.events ++ [NotifyEvent.loadingFinished] }

/-- The `CheckLoadingStarted` (lines 844-867). -/
def CheckLoadingStarted (s : SetState) : SetState :=
  let r := HasLoadingFontFaces s
  if !r.1 then r.2
  else if r.2.mStatus = .Loading then r.2
  else OnLoadingStarted { r.2 with mStatus := .Loading }

/-- The `MightHavePendingFontLoads` (lines 896-899). -/
def MightHavePendingFontLoads (s : SetState) : Bool × SetState :=
  HasLoadingFontFaces s

/-- The `CheckLoadingFinished` (lines 901-929): bail while the delayed check is
outstanding, while nothing listens for completion, or while some face still
loads; otherwise transition to `Loaded` and notify. -/
def CheckLoadingFinished (s : SetState) : SetState :=
  if s.mDelayedLoadCheck then s
  else if !s.ownerReadyPending then s
  else
    let r := MightHavePendingFontLoads s
    if r.1 then r.2
    else OnLoadingFinished { r.2 with mStatus := .Loaded }

/-- The `CheckLoadingFinishedAfterDelay` (lines 838-842). -/
def CheckLoadingFinishedAfterDelay (s : SetState) : SetState :=
  CheckLoadingFinished { s with mDelayedLoadCheck := false }

/-- The `OnFontFaceStatusChanged` (lines 791-815): a face turning `Loading`
checks for a start transition; a face reaching a terminal status arms the
one-tick delayed finish check (scheduling
`DispatchCheckLoadingFinishedAfterDelay`; the later arrival of that task is
`CheckLoadingFinishedAfterDelay`). -/
def OnFontFaceStatusChanged (fid : Nat) (s : SetState) : SetState :=
  let s1 := { s with mHasLoadingFontFacesIsDirty := true }
  if faceStatus s1 fid = .Loading then CheckLoadingStarted s1
  else if !s1.mDelayedLoadCheck then { s1 with mDelayedLoadCheck := true }
  else s1

/-! ## Face set mutations (lines 212-328) and the flush model -/

/-- Point update of one face in the environment. -/
def updateFace (s : SetState) (fid : Nat) (g : FontFaceData → FontFaceData) :
    SetState :=
  { s with faces := updateAssoc s.faces fid g }

/-- The `InsertNonRuleFontFace` (lines 304-328): a face without a family name
contributes nothing; a face without an entry resolves one through
`FindOrCreateUserFontEntryFromFontFace` (abandoning the face if that yields
none) and stores it; either way the entry is then attached to the family
via `AddUserFontEntry`. -/
def InsertNonRuleFontFace (s : SetState) (fid : Nat) : SetState :=
  match alookup s.faces fid with
  | none => s
  | some face =>
      match face.familyName with
      | none => s
      | some family =>
          match face.userFontEntry with
          | some eid => addUserFontEntry family eid s
          | none =>
              match FindOrCreateUserFontEntryFromFontFace family face .Author s with
              | (none, s1) => s1
              | (some eid, s1) =>
                  addUserFontEntry family eid
                    (updateFace s1 fid fun f => { f with userFontEntry := some eid })

/-- Modelled from the spec: rebuilding the user font set folds every
current record into a registry rebuilt from scratch (the style-engine
driven rebuild that `FlushUserFontSet` forces; its body lives outside this
translation unit). -/
def RebuildUserFontSet (s : SetState) : SetState :=
  s.mNonRuleFaces.foldl InsertNonRuleFontFace { s with families := [] }

/-- Modelled from the spec: `FlushUserFontSet` folds a pending rebuild into
the registry ("each operation first forces a flush of any pending registry
rebuild") and is a no-op when nothing is dirty. -/
def FlushUserFontSet (s : SetState) : SetState :=
  if s.userFontSetDirty then
    { RebuildUserFontSet s with userFontSetDirty := false
                                mNonRuleFacesDirty := false }
  else s

/-- The one distinct DOM error `Add` can throw. -/
inductive DomError where
  | invalidModificationError
deriving DecidableEq, Repr

/-- The `FontFaceSetImpl::Add` (lines 212-244): flush; reject an
already-present face (plain `false`), reject a rule-derived face
(`InvalidModificationError`); otherwise register membership, append the
record, mark the three dirty bits and run the loading-started check. -/
def Add (fid : Nat) (s : SetState) : (Bool × Option DomError) × SetState :=
  let s0 := FlushUserFontSet s
  match alookup s0.faces fid with
  | none => ((false, none), s0)
  | some face =>
      if face.inFontFaceSet then ((false, none), s0)
      else if face.hasRule then ((false, some .invalidModificationError), s0)
      else
        let s1 := updateFace s0 fid fun f => { f with inFontFaceSet := true }
        let s2 := { s1 with mNonRuleFaces := s1.mNonRuleFaces ++ [fid]
                            mNonRuleFacesDirty := true
                            userFontSetDirty := true
                            mHasLoadingFontFacesIsDirty := true }
        ((true, none), CheckLoadingStarted s2)

/-- The `FontFaceSetImpl::Delete` (lines 266-293): flush; reject rule-derived
faces and faces without a record; otherwise remove the first matching
record, clear the face's membership, mark the dirty bits and run the
loading-finished check. -/
def Delete (fid : Nat) (s : SetState) : Bool × SetState :=
  let s0 := FlushUserFontSet s
  match alookup s0.faces fid with
  | none => (false, s0)
  | some face =>
      if face.hasRule then (false, s0)
      else if fid ∈ s0.mNonRuleFaces then
        let s1 := { s0 with mNonRuleFaces := s0.mNonRuleFaces.erase fid }
        let s2 := updateFace s1 fid fun f => { f with inFontFaceSet := false }
        (true,
         CheckLoadingFinished
           { s2 with mNonRuleFacesDirty := true
                     userFontSetDirty := true
                     mHasLoadingFontFacesIsDirty := true })
      else (false, s0)

/-- The `FontFaceSetImpl::Clear` (lines 246-264): flush; a no-op on an empty
record list; otherwise detach every record's face, empty the list, mark the
dirty bits and run the loading-finished check. -/
def Clear (s : SetState) : SetState :=
  let s0 := FlushUserFontSet s
  if s0.mNonRuleFaces.isEmpty then s0
  else
    let s1 := s0.mNonRuleFaces.foldl
      (fun acc fid => updateFace acc fid fun f => { f with inFontFaceSet := false }) s0
    CheckLoadingFinished
      { s1 with mNonRuleFaces := []
                mNonRuleFacesDirty := true
                userFontSetDirty := true
                mHasLoadingFontFacesIsDirty := true }

/-! ## Matching engine (lines 101-199)

The Servo shorthand parser is an external collaborator; the engine is
embedded over its output: a family list and point weight/stretch/slant
values.  Text is a list of Unicode codepoints (what
`UTF16CharEnumerator::NextChar` yields). -/

/-- The `StyleSingleFontFamily`: a named family or a generic keyword (the
matching loop skips the latter: `!fontFamilyName.IsFamilyName()`). -/
inductive SingleFontFamily where
  | FamilyName (name : String)
  | Generic (g : Nat)
deriving DecidableEq, Repr

/-- The point style parsed out of the font shorthand (`gfxFontStyle`
restricted to the three fields the engine fills in, lines 148-151). -/
structure FontStyleQuery where
  weight : Int
  stretch : Int
  style : FontSlantStyle
deriving DecidableEq, Repr

/-- Point membership in a slant range, modelled from the spec (slant ranges
are homogeneous: a normal/italic point range contains exactly that slant, an
oblique range contains the oblique angles between its bounds). -/
def slantContains (r : SlantStyleRange) (v : FontSlantStyle) : Bool :=
  match r.min, r.max, v with
  | .normal, .normal, .normal => true
  | .italic, .italic, .italic => true
  | .oblique lo, .oblique hi, .oblique a => lo ≤ a ∧ a ≤ hi
  | _, _, _ => false

/-- The `gfxFontFamily::FindAllFontsForStyle`'s per-entry style test, modelled
from the spec: the requested point weight/stretch/slant all fall in the
entry's declared ranges. -/
def styleMatches (q : FontStyleQuery) (a : EntryAttributes) : Bool :=
  a.weight.min ≤ q.weight ∧ q.weight ≤ a.weight.max ∧
  a.stretch.min ≤ q.stretch ∧ q.stretch ≤ a.stretch.max ∧
  slantContains a.italicStyle q.style

/-- The `gfxUserFontEntry::CharacterInUnicodeRange`, modelled from the spec: an
entry without a compiled unicode-range covers everything, otherwise the
codepoint must fall in one of the declared inclusive ranges. -/
def CharacterInUnicodeRange (ranges : Option (List (Nat × Nat))) (c : Nat) :
    Bool :=
  match ranges with
  | none => true
  | some rs => rs.any fun r => r.1 ≤ c ∧ c ≤ r.2

/-- The `HasAnyCharacterInUnicodeRange` (lines 118-130): per-codepoint OR with
early return on the first codepoint inside the entry's range. -/
def HasAnyCharacterInUnicodeRange (ranges : Option (List (Nat × Nat)))
    (text : List Nat) : Bool :=
  text.any (CharacterInUnicodeRange ranges)

/-- The `FindAllFontsForStyle` over a family bucket: the entries whose declared
style matches the query, in bucket order. -/
def FindAllFontsForStyle (s : SetState) (eids : List Nat)
    (q : FontStyleQuery) : List UserFontEntry :=
  (eids.filterMap (alookup s.entries ·)).filter fun e => styleMatches q e.attrs

/-- The owners contributed to the matching set by one parsed family (lines
156-178): skip generics, look the family up, and for every style-matching
entry with a codepoint of the text in range collect its owners
(`FindFontFaceOwners`). -/
def familyMatchContrib (s : SetState) (q : FontStyleQuery) (text : List Nat) :
    SingleFontFamily → List Nat
  | .Generic _ => []
  | .FamilyName name =>
      match alookup s.families name with
      | none => []
      | some eids =>
          (FindAllFontsForStyle s eids q).flatMap fun e =>
            if HasAnyCharacterInUnicodeRange e.attrs.unicodeRanges text then
              e.owners
            else []

/-- The `matchingFaces` hash set (line 154).  Only membership in the set is
ever consumed (`Contains`), so it is embedded as the duplicate-carrying
concatenation of the per-family contributions. -/
def collectMatchingFaces (s : SetState) (fams : List SingleFontFamily)
    (q : FontStyleQuery) (text : List Nat) : List Nat :=
  fams.flatMap (familyMatchContrib s q text)

/-- The `FindMatchingFontFaces` (lines 132-199) after shorthand parsing: collect
the matching owners, then project the non-rule records once more, in
declaration order, keeping owners that are in the matching set. -/
def FindMatchingFontFaces (s : SetState) (fams : List SingleFontFamily)
    (q : FontStyleQuery) (text : List Nat) : List Nat :=
  let matching := collectMatchingFaces s fams q text
  s.mNonRuleFaces.filterMap fun fid =>
    match alookup s.faces fid with
    | none => none
    | some f =>
        match f.owner with
        | none => none
        | some o => if o ∈ matching then some o else none

/-! ## `SyncLoadFontData` (lines 730-789)

The channel, stream and allocator are external; their outcomes are inputs.
The two by-reference out-parameters become explicit entry values and result
fields; `allocated` records whether the `malloc` call was reached. -/

/-- Failure codes `SyncLoadFontData` can produce or propagate. -/
inductive LoadError where
  | failure
  | fileTooBig
  | outOfMemory
  | other (code : Nat)
deriving DecidableEq, Repr

deriving instance DecidableEq for Except

/-- Outcomes of the external calls `SyncLoadFontData` makes, in order. -/
structure SyncLoadEnv where
  channelResult : Except LoadError Unit
  openResult : Except LoadError Unit
  availableResult : Except LoadError Nat
  allocSucceeds : Bool
  reads : List (Except LoadError Nat)
  contentTypeResult : Except LoadError Unit
deriving DecidableEq, Repr

/-- The `stream->Read` loop (lines 762-772): accumulate chunk sizes until a
zero-length read (an exhausted `reads` list reads as the stream reporting
end of data), a read error, or an overflow past the allocated length (which
forces `NS_ERROR_FAILURE`). -/
def readLoop (bufferLength : Nat) :
    List (Except LoadError Nat) → Nat → Except LoadError Unit × Nat
  | [], totalRead => (Except.ok (), totalRead)
  | r :: rs, totalRead =>
      match r with
      | .error e => (.error e, totalRead)
      | .ok 0 => (.ok (), totalRead)
      | .ok numRead =>
          let total1 := totalRead + numRead
          if bufferLength < total1 then (.error .failure, total1)
          else readLoop bufferLength rs total1

/-- The `UINT32_MAX`. -/
def UINT32_MAX : Nat := 4294967295

/-- The observable outcome of `SyncLoadFontData`: return value plus the two
out-parameters, and whether allocation was attempted. -/
structure SyncLoadResult where
  result : Except LoadError Unit
  buffer : Option Nat
  bufferLength : Nat
  allocated : Bool
deriving DecidableEq, Repr

/-- The `FontFaceSetImpl::SyncLoadFontData` (lines 730-789).  `aBuffer` and
`aBufferLength` are the caller's values of the by-reference out-parameters
on entry. -/
def SyncLoadFontData (env : SyncLoadEnv) (aBuffer : Option Nat)
    (aBufferLength : Nat) : SyncLoadResult :=
  match env.channelResult with
  | .error e => ⟨.error e, aBuffer, aBufferLength, false⟩
  | .ok _ =>
  match env.openResult with
  | .error e => ⟨.error e, aBuffer, aBufferLength, false⟩
  | .ok _ =>
  match env.availableResult with
  | .error e => ⟨.error e, aBuffer, aBufferLength, false⟩
  | .ok bufferLength64 =>
  if bufferLength64 = 0 then ⟨.error .failure, aBuffer, aBufferLength, false⟩
  else if UINT32_MAX < bufferLength64 then
    ⟨.error .fileTooBig, aBuffer, aBufferLength, false⟩
  else
    let len := bufferLength64
    if !env.allocSucceeds then ⟨.error .outOfMemory, none, 0, true⟩
    else
      let buf := some len
      let r := readLoop len env.reads 0
      let rv : Except LoadError Unit :=
        match r.1 with
        | .ok _ => env.contentTypeResult
        | .error e => .error e
      let outLen : Nat := match r.1 with | .ok _ => r.2 | .error _ => len
      match rv with
      | .error e => ⟨.error e, none, 0, true⟩
      | .ok _ => ⟨.ok (), buf, outLen, true⟩

/-! ## Helper lemmas on association lists -/

theorem alookup_updateAssoc_self {κ β : Type} [DecidableEq κ]
    (l : List (κ × β)) (k : κ) (g : β → β) :
    alookup (updateAssoc l k g) k = (alookup l k).map g := by
  induction l with
  | nil => rfl
  | cons p l ih =>
      by_cases h : p.1 = k
      · simp [updateAssoc, alookup, h]
      · simp [updateAssoc, alookup, h, ih]

theorem alookup_updateAssoc_ne {κ β : Type} [DecidableEq κ]
    (l : List (κ × β)) (k k' : κ) (g : β → β) (h : k' ≠ k) :
    alookup (updateAssoc l k g) k' = alookup l k' := by
  induction l with
  | nil => rfl
  | cons p l ih =>
      have hkk : ¬ k = k' := fun hk => h hk.symm
      by_cases hp : p.1 = k
      · have hp' : ¬ p.1 = k' := by rw [hp]; exact hkk
        simp [updateAssoc, alookup, hp, hp', hkk, ih]
      · by_cases hk2 : p.1 = k'
        · simp [updateAssoc, alookup, hp, hk2, h]
        · simp [updateAssoc, alookup, hp, hk2, ih]

theorem map_fst_updateAssoc {κ β : Type} [DecidableEq κ]
    (l : List (κ × β)) (k : κ) (g : β → β) :
    (updateAssoc l k g).map Prod.fst = l.map Prod.fst := by
  induction l with
  | nil => rfl
  | cons p l ih =>
      by_cases h : p.1 = k <;> simp [updateAssoc, h, ih]

/-! ## C9: descriptor resolver -/

/-- Claim C9: an absent (auto) weight, stretch or slant range makes the
resolver set the corresponding auto range flag and use the NORMAL default
range, a present range leaves the incoming flags untouched (so auto is
never collapsed into an unflagged normal value: the auto bit after
resolution is exactly "input absent, or bit already set"), and the slant
descriptor type is exhausted by the Normal/Italic/Oblique kinds, so the
fatally-asserted code after the slant switch has no reachable counterpart. -/
theorem descriptor_resolver_auto_flags :
    (∀ flags, GetWeightRangeForDescriptor none flags =
        (NumRange.single weightNORMAL, { flags with autoWeight := true })) ∧
    (∀ lo hi flags,
        GetWeightRangeForDescriptor (some (lo, hi)) flags = (⟨lo, hi⟩, flags)) ∧
    (∀ flags, GetStretchRangeForDescriptor none flags =
        (NumRange.single stretchNORMAL, { flags with autoStretch := true })) ∧
    (∀ lo hi flags,
        GetStretchRangeForDescriptor (some (lo, hi)) flags = (⟨lo, hi⟩, flags)) ∧
    (∀ flags, GetStyleRangeForDescriptor none flags =
        (SlantStyleRange.single FontSlantStyle.NORMAL,
         { flags with autoSlantStyle := true })) ∧
    (∀ v flags, (GetStyleRangeForDescriptor (some v) flags).2 = flags) ∧
    (∀ v flags, (GetWeightRangeForDescriptor v flags).2.autoWeight =
        (v.isNone || flags.autoWeight)) ∧
    (∀ v flags, (GetStretchRangeForDescriptor v flags).2.autoStretch =
        (v.isNone || flags.autoStretch)) ∧
    (∀ v flags, (GetStyleRangeForDescriptor v flags).2.autoSlantStyle =
        (v.isNone || flags.autoSlantStyle)) ∧
    (∀ d : StyleComputedFontStyleDescriptor,
        d = .Normal ∨ d = .Italic ∨ ∃ lo hi, d = .Oblique lo hi) := by
  refine ⟨fun _ => rfl, fun _ _ _ => rfl, fun _ => rfl, fun _ _ _ => rfl,
    fun _ => rfl, ?_, ?_, ?_, ?_, ?_⟩
  · intro v flags
    cases v <;> rfl
  · intro v flags
    rcases v with _ | ⟨lo, hi⟩ <;> simp [GetWeightRangeForDescriptor]
  · intro v flags
    rcases v with _ | ⟨lo, hi⟩ <;> simp [GetStretchRangeForDescriptor]
  · intro v flags
    rcases v with _ | v
    · simp [GetStyleRangeForDescriptor]
    · cases v <;> simp [GetStyleRangeForDescriptor]
  · intro d
    rcases d with _ | _ | ⟨lo, hi⟩
    · exact Or.inl rfl
    · exact Or.inr (Or.inl rfl)
    · exact Or.inr (Or.inr ⟨lo, hi, rfl⟩)

/-! ## C7: source list building -/

/-- Claim C7: a format-hint token directly after a URL token attaches to that
URL's source and is consumed (one source, format woff2, for
`[Url, FormatHintKeyword woff2]`); a URL with no following hint gets format
None; the hint string "WOFF" is recognized case-insensitively and produces
the same build as the woff keyword; an unrecognized hint string produces
the Unknown marker, which is distinct from None; and a URL token with no
resolvable URI is dropped (together with its trailing hint/tech tokens)
without affecting sibling sources. -/
theorem source_list_builder_spec (v : Bool) (o : StyleOrigin) :
    (∀ u, buildSrcArray v o [.Url (some u), .FormatHintKeyword .Woff2] =
        [urlSrc o u .Woff2 TechFlags.empty]) ∧
    (urlSrc o 0 .Woff2 TechFlags.empty).mFormatHint = .Woff2 ∧
    (∀ u, buildSrcArray v o [.Url (some u)] =
        [urlSrc o u .None TechFlags.empty]) ∧
    (urlSrc o 0 .None TechFlags.empty).mFormatHint = .None ∧
    parseFormatHintString v "WOFF" = .Woff ∧
    (∀ u rest,
        buildSrcArray v o (.Url (some u) :: .FormatHintString "WOFF" :: rest) =
        buildSrcArray v o (.Url (some u) :: .FormatHintKeyword .Woff :: rest)) ∧
    parseFormatHintString v "bogus-format" = .Unknown ∧
    FormatKeyword.Unknown ≠ FormatKeyword.None ∧
    (∀ k rest, (∀ t rs, rest ≠ .TechFlagsToken t :: rs) →
        buildSrcArray v o (.Url none :: .FormatHintKeyword k :: rest) =
        buildSrcArray v o rest) ∧
    (∀ k t rest,
        buildSrcArray v o
          (.Url none :: .FormatHintKeyword k :: .TechFlagsToken t :: rest) =
        buildSrcArray v o rest) ∧
    (∀ hs rest, (∀ t rs, rest ≠ .TechFlagsToken t :: rs) →
        buildSrcArray v o (.Url none :: .FormatHintString hs :: rest) =
        buildSrcArray v o rest) ∧
    (∀ t rest, buildSrcArray v o (.Url none :: .TechFlagsToken t :: rest) =
        buildSrcArray v o rest) ∧
    (∀ name rest, buildSrcArray v o (.Url none :: .Local name :: rest) =
        buildSrcArray v o (.Local name :: rest)) ∧
    (∀ u rest, buildSrcArray v o (.Url none :: .Url u :: rest) =
        buildSrcArray v o (.Url u :: rest)) ∧
    buildSrcArray v o [.Url none] = [] ∧
    (∀ u1 name, buildSrcArray v o
        [.Url (some u1), .FormatHintKeyword .Woff2, .Url none, .Local name] =
        [urlSrc o u1 .Woff2 TechFlags.empty, localSrc name]) := by
  refine ⟨fun _ => rfl, rfl, fun _ => rfl, rfl, ?_, ?_, ?_, by decide,
    ?_, fun _ _ _ => rfl, ?_, fun _ _ => rfl, fun _ _ => rfl, ?_, rfl,
    fun _ _ => rfl⟩
  · cases v <;> rfl
  · intro u rest
    have h : parseFormatHintString v "WOFF" = .Woff := by cases v <;> rfl
    cases rest with
    | nil => simp [buildSrcArray, h]
    | cons c cs => cases c <;> simp [buildSrcArray, h]
  · cases v <;> rfl
  · intro k rest hrest
    cases rest with
    | nil => rfl
    | cons c cs =>
        cases c with
        | TechFlagsToken t => exact absurd rfl (hrest t cs)
        | Local name => rfl
        | Url u => rfl
        | FormatHintKeyword k2 => rfl
        | FormatHintString s2 => rfl
  · intro hs rest hrest
    cases rest with
    | nil => rfl
    | cons c cs =>
        cases c with
        | TechFlagsToken t => exact absurd rfl (hrest t cs)
        | Local name => rfl
        | Url u => rfl
        | FormatHintKeyword k2 => rfl
        | FormatHintString s2 => rfl
  · intro u rest
    cases u <;> rfl

/-! ## C10: `SyncLoadFontData` error paths -/

/-- Claim C10: with its out-parameters entering as null/zero (the only values
the function itself ever leaves or writes on failure), every failure return
of `SyncLoadFontData` leaves the output buffer null and the output length
zero; a zero-length payload yields `NS_ERROR_FAILURE`; a payload longer
than `UINT32_MAX` yields `NS_ERROR_FILE_TOO_BIG` with the allocation never
reached; and a failed allocation yields `NS_ERROR_OUT_OF_MEMORY` with
the length reset to zero and the buffer null. -/
theorem syncLoadFontData_failure_resets (env : SyncLoadEnv) :
    (∀ e, (SyncLoadFontData env none 0).result = .error e →
        (SyncLoadFontData env none 0).buffer = none ∧
        (SyncLoadFontData env none 0).bufferLength = 0) ∧
    (env.channelResult = .ok () → env.openResult = .ok () →
        env.availableResult = .ok 0 →
        (SyncLoadFontData env none 0).result = .error .failure) ∧
    (∀ n, env.channelResult = .ok () → env.openResult = .ok () →
        env.availableResult = .ok n → UINT32_MAX < n →
        (SyncLoadFontData env none 0).result = .error .fileTooBig ∧
        (SyncLoadFontData env none 0).allocated = false) ∧
    (∀ n, env.channelResult = .ok () → env.openResult = .ok () →
        env.availableResult = .ok n → n ≠ 0 → ¬ UINT32_MAX < n →
        env.allocSucceeds = false →
        (SyncLoadFontData env none 0).result = .error .outOfMemory ∧
        (SyncLoadFontData env none 0).buffer = none ∧
        (SyncLoadFontData env none 0).bufferLength = 0) := by
  obtain ⟨ch, op, av, al, rd, ct⟩ := env
  refine ⟨?_, ?_, ?_, ?_⟩
  · intro e
    cases ch with
    | error e0 => simp [SyncLoadFontData]
    | ok u =>
        cases u
        cases op with
        | error e0 => simp [SyncLoadFontData]
        | ok u =>
            cases u
            cases av with
            | error e0 => simp [SyncLoadFontData]
            | ok n =>
                by_cases hn : n = 0
                · simp [SyncLoadFontData, hn]
                · by_cases hbig : UINT32_MAX < n
                  · simp [SyncLoadFontData, hn, hbig]
                  · cases al with
                    | false => simp [SyncLoadFontData, hn, hbig]
                    | true =>
                        rcases hr : readLoop n rd 0 with ⟨rv1, total⟩
                        cases rv1 with
                        | error e1 => simp [SyncLoadFontData, hn, hbig, hr]
                        | ok u2 =>
                            cases u2
                            cases ct with
                            | error e2 => simp [SyncLoadFontData, hn, hbig, hr]
                            | ok u3 =>
                                cases u3
                                simp [SyncLoadFontData, hn, hbig, hr]
  · intro h1 h2 h3
    subst h1; subst h2; subst h3
    simp [SyncLoadFontData]
  · intro n h1 h2 h3 hbig
    subst h1; subst h2; subst h3
    have hn : ¬ n = 0 := by
      simp only [UINT32_MAX] at hbig
      omega
    simp [SyncLoadFontData, hn, hbig]
  · intro n h1 h2 h3 hn hbig hal
    subst h1; subst h2; subst h3; subst hal
    simp [SyncLoadFontData, hn, hbig]

/-- A concrete environment whose stream reports an empty payload. -/
def syncEnvZero : SyncLoadEnv :=
  { channelResult := .ok (), openResult := .ok (), availableResult := .ok 0,
    allocSucceeds := true, reads := [], contentTypeResult := .ok () }

/-- Witness for `syncLoadFontData_failure_resets` at `syncEnvZero`: the
zero-length payload fails and the outputs are null/zero. -/
theorem syncLoadFontData_failure_resets_witness :
    (SyncLoadFontData syncEnvZero none 0).result = .error .failure ∧
    (SyncLoadFontData syncEnvZero none 0).buffer = none ∧
    (SyncLoadFontData syncEnvZero none 0).bufferLength = 0 := by
  have h := syncLoadFontData_failure_resets syncEnvZero
  have hres := h.2.1 rfl rfl rfl
  exact ⟨hres, (h.1 .failure hres).1, (h.1 .failure hres).2⟩

/-! ## C1, C2: update-in-place and family reassignment -/

/-- In how many family buckets an entry id occurs. -/
def familiesContaining (families : List (String × List Nat)) (e : Nat) : Nat :=
  families.countP fun p => decide (e ∈ p.2)

theorem familiesContaining_updateAssoc_le
    (families : List (String × List Nat)) (fam : String)
    (g : List Nat → List Nat) (hg : ∀ l x, x ∈ g l → x ∈ l) (e : Nat) :
    familiesContaining (updateAssoc families fam g) e ≤
    familiesContaining families e := by
  induction families with
  | nil => exact Nat.le_refl _
  | cons p rest ih =>
      simp only [familiesContaining, updateAssoc, List.countP_cons] at ih ⊢
      refine Nat.add_le_add ih ?_
      by_cases h : p.1 = fam
      · simp only [if_pos h]
        by_cases hm : e ∈ g p.2
        · have hin : e ∈ p.2 := hg p.2 e hm
          simp [hm, hin]
        · simp only [decide_eq_true_eq]
          by_cases hin : e ∈ p.2 <;> simp [hm, hin]
      · simp [if_neg h]

/-- The existing-entry branch of `FindOrCreateUserFontEntryFromFontFace`
written out as a single state equation: attributes overwritten in place,
then (exactly when the stored family name is non-empty and differs) the
entry removed from its stored family and its name tag cleared. -/
theorem findOrCreate_existing_spec (famName : String) (face : FontFaceData)
    (origin : StyleOrigin) (s : SetState) (eid : Nat) (ent : UserFontEntry)
    (hface : face.userFontEntry = some eid)
    (hent : alookup s.entries eid = some ent) :
    FindOrCreateUserFontEntryFromFontFace famName face origin s =
      if ent.mFamilyName ≠ "" ∧ ent.mFamilyName ≠ famName then
        (some eid,
         { s with
           entries := updateAssoc
             (updateAssoc s.entries eid fun e =>
               { e with attrs := computeEntryAttributes face })
             eid fun e => { e with mFamilyName := "" }
           families :=
             match alookup s.families ent.mFamilyName with
             | none => s.families
             | some _ => removeFontEntryFromFamily s.families ent.mFamilyName eid })
      else
        (some eid,
         { s with entries := updateAssoc s.entries eid fun e =>
             { e with attrs := computeEntryAttributes face } }) := by
  have hup : alookup (updateAssoc s.entries eid fun e =>
      { e with attrs := computeEntryAttributes face }) eid
      = some { ent with attrs := computeEntryAttributes face } := by
    rw [alookup_updateAssoc_self, hent]
    rfl
  simp only [FindOrCreateUserFontEntryFromFontFace, hface, updateEntryAttributes,
    hup]
  by_cases hcond : ent.mFamilyName ≠ "" ∧ ent.mFamilyName ≠ famName
  · rw [if_pos hcond, if_pos hcond]
    cases hfam : alookup s.families ent.mFamilyName with
    | none => rfl
    | some l0 => rfl
  · rw [if_neg hcond, if_neg hcond]

/-- Claim C1: when the face already owns a resource entry,
`FindOrCreateUserFontEntryFromFontFace` returns that same entry, allocates
no new entry (entry ids and the id counter are unchanged), overwrites the
entry's attributes in place with the freshly computed ones while leaving
its source list (and owner set) untouched, and — when the requested family
name equals the entry's stored one — leaves the registry untouched, so
re-resolving an unchanged descriptor can never add a second entry to the
family. -/
theorem findOrCreate_existing_entry_in_place (famName : String)
    (face : FontFaceData) (origin : StyleOrigin) (s : SetState) (eid : Nat)
    (ent : UserFontEntry) (hface : face.userFontEntry = some eid)
    (hent : alookup s.entries eid = some ent) :
    (FindOrCreateUserFontEntryFromFontFace famName face origin s).1 = some eid ∧
    (FindOrCreateUserFontEntryFromFontFace famName face origin s).2.entries.map
        Prod.fst = s.entries.map Prod.fst ∧
    (FindOrCreateUserFontEntryFromFontFace famName face origin s).2.nextEntryId
        = s.nextEntryId ∧
    (∃ ent2, alookup
        (FindOrCreateUserFontEntryFromFontFace famName face origin s).2.entries
        eid = some ent2 ∧
        ent2.srcList = ent.srcList ∧
        ent2.attrs = computeEntryAttributes face ∧
        ent2.owners = ent.owners) ∧
    (ent.mFamilyName = famName →
        (FindOrCreateUserFontEntryFromFontFace famName face origin s).2.families
          = s.families) := by
  rw [findOrCreate_existing_spec famName face origin s eid ent hface hent]
  by_cases hcond : ent.mFamilyName ≠ "" ∧ ent.mFamilyName ≠ famName
  · rw [if_pos hcond]
    refine ⟨rfl, ?_, rfl, ?_, fun heq => absurd heq hcond.2⟩
    · show (updateAssoc (updateAssoc s.entries eid _) eid _).map Prod.fst
          = s.entries.map Prod.fst
      rw [map_fst_updateAssoc, map_fst_updateAssoc]
    · refine ⟨{ { ent with attrs := computeEntryAttributes face } with
          mFamilyName := "" }, ?_, rfl, rfl, rfl⟩
      show alookup (updateAssoc (updateAssoc s.entries eid _) eid _) eid = _
      rw [alookup_updateAssoc_self, alookup_updateAssoc_self, hent]
      rfl
  · rw [if_neg hcond]
    refine ⟨rfl, ?_, rfl, ?_, fun _ => rfl⟩
    · show (updateAssoc s.entries eid _).map Prod.fst = s.entries.map Prod.fst
      rw [map_fst_updateAssoc]
    · refine ⟨{ ent with attrs := computeEntryAttributes face }, ?_, rfl, rfl,
        rfl⟩
      show alookup (updateAssoc s.entries eid _) eid = _
      rw [alookup_updateAssoc_self, hent]
      rfl

/-- Witness descriptor for the C1/C2 theorems: a face owning entry 0. -/
def faceW : FontFaceData :=
  { familyName := some "A", hasRule := false, status := .Unloaded,
    owner := some 7, userFontEntry := some 0, inFontFaceSet := false,
    hasFontData := false, sources := [], fontWeight := some (400, 400),
    fontStretch := none, fontStyle := none, fontDisplay := none,
    ascentOverride := none, descentOverride := none, lineGapOverride := none,
    sizeAdjust := none, featureSettings := [], variationSettings := [],
    languageOverride := none, unicodeRange := none }

/-- An entry attached to family "A". -/
def entW : UserFontEntry :=
  { attrs := computeEntryAttributes faceW,
    srcList := [localSrc "x"], mFamilyName := "A", owners := [7] }

/-- A small state owning `entW` under family "A". -/
def stateW : SetState :=
  { families := [("A", [0])], entries := [(0, entW)], nextEntryId := 1,
    faces := [(1, faceW)], mNonRuleFaces := [1], mStatus := .Loaded,
    mNonRuleFacesDirty := false, userFontSetDirty := false,
    mHasLoadingFontFaces := false, mHasLoadingFontFacesIsDirty := false,
    mDelayedLoadCheck := false, ownerReadyPending := false,
    variationsEnabled := true, events := [] }

theorem findOrCreate_existing_entry_in_place_witness :
    (FindOrCreateUserFontEntryFromFontFace "A" faceW .Author stateW).1 = some 0 ∧
    (FindOrCreateUserFontEntryFromFontFace "A" faceW .Author
        stateW).2.entries.map Prod.fst = stateW.entries.map Prod.fst ∧
    (FindOrCreateUserFontEntryFromFontFace "A" faceW .Author
        stateW).2.nextEntryId = stateW.nextEntryId ∧
    (∃ ent2, alookup (FindOrCreateUserFontEntryFromFontFace "A" faceW .Author
        stateW).2.entries 0 = some ent2 ∧
        ent2.srcList = entW.srcList ∧
        ent2.attrs = computeEntryAttributes faceW ∧
        ent2.owners = entW.owners) ∧
    (FindOrCreateUserFontEntryFromFontFace "A" faceW .Author stateW).2.families
        = stateW.families := by
  have h := findOrCreate_existing_entry_in_place "A" faceW .Author stateW 0
    entW rfl rfl
  exact ⟨h.1, h.2.1, h.2.2.1, h.2.2.2.1, h.2.2.2.2 rfl⟩

/-- Claim C2: when the face's entry carries a non-empty stored family name
different from the requested one, resolution removes the entry from that
stored family's bucket, clears the entry's stored family tag, leaves every
other family's bucket untouched, and can only shrink the number of families
containing any entry — so an entry in at most one family stays in at most
one family, and the detached entry re-attaches cleanly. -/
theorem findOrCreate_family_detach (famName : String) (face : FontFaceData)
    (origin : StyleOrigin) (s : SetState) (eid : Nat) (ent : UserFontEntry)
    (hface : face.userFontEntry = some eid)
    (hent : alookup s.entries eid = some ent)
    (hne : ent.mFamilyName ≠ "") (hdiff : ent.mFamilyName ≠ famName) :
    (∃ ent2, alookup
        (FindOrCreateUserFontEntryFromFontFace famName face origin s).2.entries
        eid = some ent2 ∧ ent2.mFamilyName = "") ∧
    (∀ l, alookup
        (FindOrCreateUserFontEntryFromFontFace famName face origin s).2.families
        ent.mFamilyName = some l → eid ∉ l) ∧
    (∀ fam, fam ≠ ent.mFamilyName →
        alookup (FindOrCreateUserFontEntryFromFontFace famName face origin
          s).2.families fam = alookup s.families fam) ∧
    (∀ e, familiesContaining
        (FindOrCreateUserFontEntryFromFontFace famName face origin s).2.families
        e ≤ familiesContaining s.families e) ∧
    (∀ e, familiesContaining s.families e ≤ 1 →
        familiesContaining
          (FindOrCreateUserFontEntryFromFontFace famName face origin
            s).2.families e ≤ 1) := by
  rw [findOrCreate_existing_spec famName face origin s eid ent hface hent,
    if_pos ⟨hne, hdiff⟩]
  cases hfam : alookup s.families ent.mFamilyName with
  | none =>
      refine ⟨?_, ?_, fun fam _ => rfl, fun e => Nat.le_refl _, fun e he => he⟩
      · refine ⟨{ { ent with attrs := computeEntryAttributes face } with
          mFamilyName := "" }, ?_, rfl⟩
        show alookup (updateAssoc (updateAssoc s.entries eid _) eid _) eid = _
        rw [alookup_updateAssoc_self, alookup_updateAssoc_self, hent]
        rfl
      · intro l hl
        have hl2 : alookup s.families ent.mFamilyName = some l := hl
        rw [hfam] at hl2
        exact absurd hl2 (by simp)
  | some l0 =>
      refine ⟨?_, ?_, ?_, ?_, ?_⟩
      · refine ⟨{ { ent with attrs := computeEntryAttributes face } with
          mFamilyName := "" }, ?_, rfl⟩
        show alookup (updateAssoc (updateAssoc s.entries eid _) eid _) eid = _
        rw [alookup_updateAssoc_self, alookup_updateAssoc_self, hent]
        rfl
      · intro l hl
        have hl2 : alookup (removeFontEntryFromFamily s.families ent.mFamilyName
            eid) ent.mFamilyName = some l := hl
        rw [removeFontEntryFromFamily, alookup_updateAssoc_self, hfam] at hl2
        cases hl2
        intro hmem
        have := List.of_mem_filter hmem
        simp at this
      · intro fam hfamne
        show alookup (removeFontEntryFromFamily s.families ent.mFamilyName eid)
            fam = alookup s.families fam
        exact alookup_updateAssoc_ne _ _ _ _ hfamne
      · intro e
        exact familiesContaining_updateAssoc_le s.families ent.mFamilyName _
          (fun l x hx => (List.mem_filter.mp hx).1) e
      · intro e he
        exact Nat.le_trans (familiesContaining_updateAssoc_le s.families
          ent.mFamilyName _ (fun l x hx => (List.mem_filter.mp hx).1) e) he

/-- An entry attached to family "B", owned by the face that re-declares
family "A". -/
def entW2 : UserFontEntry :=
  { attrs := computeEntryAttributes faceW,
    srcList := [localSrc "x"], mFamilyName := "B", owners := [7] }

/-- A state where entry 0 sits in family "B" while its face re-declares
family "A". -/
def stateW2 : SetState :=
  { families := [("B", [0])], entries := [(0, entW2)], nextEntryId := 1,
    faces := [(1, faceW)], mNonRuleFaces := [1], mStatus := .Loaded,
    mNonRuleFacesDirty := false, userFontSetDirty := false,
    mHasLoadingFontFaces := false, mHasLoadingFontFacesIsDirty := false,
    mDelayedLoadCheck := false, ownerReadyPending := false,
    variationsEnabled := true, events := [] }

theorem findOrCreate_family_detach_witness :
    (∃ ent2, alookup
        (FindOrCreateUserFontEntryFromFontFace "A" faceW .Author
          stateW2).2.entries 0 = some ent2 ∧ ent2.mFamilyName = "") ∧
    (∀ l, alookup (FindOrCreateUserFontEntryFromFontFace "A" faceW .Author
        stateW2).2.families "B" = some l → 0 ∉ l) ∧
    (∀ e, familiesContaining
        (FindOrCreateUserFontEntryFromFontFace "A" faceW .Author
          stateW2).2.families e ≤ familiesContaining stateW2.families e) := by
  have h := findOrCreate_family_detach "A" faceW .Author stateW2 0 entW2
    rfl rfl (by decide) (by decide)
  exact ⟨h.1, h.2.1, h.2.2.2.1⟩

/-! ## C3: aggregate status transitions -/

/-- Ground truth for "some tracked face is mid-load". -/
def anyFaceLoading (s : SetState) : Bool :=
  s.mNonRuleFaces.any fun fid => faceStatus s fid = .Loading

/-- The cache invariant the code maintains for `mHasLoadingFontFaces`:
either the dirty bit is set (so the next read recomputes) or the cached
value is correct. -/
def loadingCacheOk (s : SetState) : Prop :=
  s.mHasLoadingFontFacesIsDirty = true ∨
  s.mHasLoadingFontFaces = anyFaceLoading s

instance (s : SetState) : Decidable (loadingCacheOk s) := by
  unfold loadingCacheOk
  infer_instance

theorem hasLoadingFontFaces_fst (s : SetState) (hc : loadingCacheOk s) :
    (HasLoadingFontFaces s).1 = anyFaceLoading s := by
  by_cases hd : s.mHasLoadingFontFacesIsDirty
  · simp [HasLoadingFontFaces, hd, UpdateHasLoadingFontFaces, anyFaceLoading]
  · rcases hc with hc | hc
    · exact absurd hc hd
    · simp [HasLoadingFontFaces, hd, hc]

theorem hasLoadingFontFaces_snd_fields (s : SetState) :
    (HasLoadingFontFaces s).2.mStatus = s.mStatus ∧
    (HasLoadingFontFaces s).2.mNonRuleFaces = s.mNonRuleFaces ∧
    (HasLoadingFontFaces s).2.faces = s.faces ∧
    (HasLoadingFontFaces s).2.mDelayedLoadCheck = s.mDelayedLoadCheck ∧
    (HasLoadingFontFaces s).2.ownerReadyPending = s.ownerReadyPending ∧
    (HasLoadingFontFaces s).2.events = s.events ∧
    (HasLoadingFontFaces s).2.mNonRuleFacesDirty = s.mNonRuleFacesDirty ∧
    (HasLoadingFontFaces s).2.userFontSetDirty = s.userFontSetDirty ∧
    (HasLoadingFontFaces s).2.entries = s.entries ∧
    (HasLoadingFontFaces s).2.families = s.families ∧
    (HasLoadingFontFaces s).2.nextEntryId = s.nextEntryId := by
  by_cases hd : s.mHasLoadingFontFacesIsDirty <;>
    simp [HasLoadingFontFaces, hd, UpdateHasLoadingFontFaces]

/-- Result status of `CheckLoadingStarted`: `Loading` exactly when some
face loads, otherwise unchanged. -/
theorem checkLoadingStarted_status (s : SetState) (hc : loadingCacheOk s) :
    (CheckLoadingStarted s).mStatus =
      if anyFaceLoading s then .Loading else s.mStatus := by
  have hst := (hasLoadingFontFaces_snd_fields s).1
  have hfst := hasLoadingFontFaces_fst s hc
  by_cases hany : anyFaceLoading s
  · rw [if_pos hany]
    by_cases hld : (HasLoadingFontFaces s).2.mStatus = .Loading
    · simp only [CheckLoadingStarted, hfst, hany, Bool.not_true, if_pos hld,
        Bool.false_eq_true, if_false]
      exact hld
    · simp [CheckLoadingStarted, hfst, hany, hld, OnLoadingStarted]
  · rw [if_neg hany]
    simp only [CheckLoadingStarted, hfst]
    simp only [Bool.not_eq_true'] at hany
    simp [hany, hst]

/-- Result status of `CheckLoadingFinished`: `Loaded` exactly when the
delayed check is clear, the ready promise pending and no face loads;
otherwise unchanged. -/
theorem checkLoadingFinished_status (s : SetState) (hc : loadingCacheOk s) :
    (CheckLoadingFinished s).mStatus =
      if s.mDelayedLoadCheck then s.mStatus
      else if !s.ownerReadyPending then s.mStatus
      else if anyFaceLoading s then s.mStatus else .Loaded := by
  have hst := (hasLoadingFontFaces_snd_fields s).1
  have hfst := hasLoadingFontFaces_fst s hc
  by_cases hdel : s.mDelayedLoadCheck
  · simp [CheckLoadingFinished, hdel]
  · by_cases hpen : s.ownerReadyPending
    · by_cases hany : anyFaceLoading s
      · simp [CheckLoadingFinished, MightHavePendingFontLoads, hdel, hpen,
          hfst, hany, hst]
      · simp [CheckLoadingFinished, MightHavePendingFontLoads, hdel, hpen,
          hfst, hany, OnLoadingFinished]
    · simp only [Bool.not_eq_true] at hpen
      simp [CheckLoadingFinished, hdel, hpen]

/-- Claim C3: under the maintained cache invariant, `CheckLoadingStarted`
changes the aggregate only Loaded→Loading and only when some tracked face
is Loading; `CheckLoadingFinished` changes it only Loading→Loaded and only
with the delayed-check flag clear, the ready promise pending, and no face
Loading; with the delayed-check flag set `CheckLoadingFinished` is the
identity; and while any face is mid-load `CheckLoadingFinished` never moves
the aggregate (in particular never to Loaded). -/
theorem aggregate_status_transitions (s : SetState) (hc : loadingCacheOk s) :
    ((CheckLoadingStarted s).mStatus ≠ s.mStatus →
        s.mStatus = .Loaded ∧ (CheckLoadingStarted s).mStatus = .Loading ∧
        anyFaceLoading s = true) ∧
    ((CheckLoadingFinished s).mStatus ≠ s.mStatus →
        s.mStatus = .Loading ∧ (CheckLoadingFinished s).mStatus = .Loaded ∧
        s.mDelayedLoadCheck = false ∧ s.ownerReadyPending = true ∧
        anyFaceLoading s = false) ∧
    (s.mDelayedLoadCheck = true → CheckLoadingFinished s = s) ∧
    (anyFaceLoading s = true → (CheckLoadingFinished s).mStatus = s.mStatus) := by
  have hstart := checkLoadingStarted_status s hc
  have hfin := checkLoadingFinished_status s hc
  refine ⟨?_, ?_, ?_, ?_⟩
  · intro hne
    by_cases hany : anyFaceLoading s
    · rw [hstart, if_pos hany] at hne ⊢
      cases hs : s.mStatus with
      | Loading => exact absurd (hs ▸ rfl) (hs ▸ hne)
      | Loaded => exact ⟨rfl, rfl, hany⟩
    · rw [hstart, if_neg hany] at hne
      exact absurd rfl hne
  · intro hne
    rw [hfin] at hne ⊢
    by_cases hdel : s.mDelayedLoadCheck
    · rw [if_pos hdel] at hne
      exact absurd rfl hne
    · rw [if_neg hdel] at hne ⊢
      by_cases hpen : s.ownerReadyPending
      · have hpen' : (!s.ownerReadyPending) = false := by simp [hpen]
        rw [hpen', if_neg (by simp)] at hne ⊢
        by_cases hany : anyFaceLoading s
        · rw [if_pos hany] at hne
          exact absurd rfl hne
        · rw [if_neg hany] at hne ⊢
          cases hs : s.mStatus with
          | Loaded => exact absurd (hs ▸ rfl) (hs ▸ hne)
          | Loading =>
              refine ⟨rfl, rfl, by simp [hdel], by simp [hpen], by simp [hany]⟩
      · have hpen' : (!s.ownerReadyPending) = true := by simp [hpen]
        rw [hpen', if_pos rfl] at hne
        exact absurd rfl hne
  · intro hdel
    simp [CheckLoadingFinished, hdel]
  · intro hany
    rw [hfin]
    by_cases hdel : s.mDelayedLoadCheck
    · rw [if_pos hdel]
    · rw [if_neg hdel]
      by_cases hpen : s.ownerReadyPending
      · have hpen' : (!s.ownerReadyPending) = false := by simp [hpen]
        rw [hpen', if_neg (by simp), if_pos hany]
      · have hpen' : (!s.ownerReadyPending) = true := by simp [hpen]
        rw [hpen', if_pos rfl]

/-- A state with one mid-load face, dirty cache, pending promise. -/
def stateL : SetState :=
  { families := [], entries := [], nextEntryId := 0,
    faces := [(1, { faceW with status := .Loading })],
    mNonRuleFaces := [1], mStatus := .Loaded,
    mNonRuleFacesDirty := false, userFontSetDirty := false,
    mHasLoadingFontFaces := false, mHasLoadingFontFacesIsDirty := true,
    mDelayedLoadCheck := false, ownerReadyPending := true,
    variationsEnabled := true, events := [] }

theorem aggregate_status_transitions_witness :
    loadingCacheOk stateL ∧
    (((CheckLoadingStarted stateL).mStatus ≠ stateL.mStatus →
        stateL.mStatus = .Loaded ∧
        (CheckLoadingStarted stateL).mStatus = .Loading ∧
        anyFaceLoading stateL = true) ∧
     ((CheckLoadingFinished stateL).mStatus ≠ stateL.mStatus →
        stateL.mStatus = .Loading ∧
        (CheckLoadingFinished stateL).mStatus = .Loaded ∧
        stateL.mDelayedLoadCheck = false ∧ stateL.ownerReadyPending = true ∧
        anyFaceLoading stateL = false) ∧
     (stateL.mDelayedLoadCheck = true → CheckLoadingFinished stateL = stateL) ∧
     (anyFaceLoading stateL = true →
        (CheckLoadingFinished stateL).mStatus = stateL.mStatus)) :=
  ⟨by decide, aggregate_status_transitions stateL (by decide)⟩

/-! ## C5, C8: Add and Clear -/

theorem checkLoadingStarted_preserves (s : SetState) :
    (CheckLoadingStarted s).mNonRuleFaces = s.mNonRuleFaces ∧
    (CheckLoadingStarted s).faces = s.faces ∧
    (CheckLoadingStarted s).mNonRuleFacesDirty = s.mNonRuleFacesDirty ∧
    (CheckLoadingStarted s).userFontSetDirty = s.userFontSetDirty ∧
    (CheckLoadingStarted s).entries = s.entries ∧
    (CheckLoadingStarted s).families = s.families ∧
    (CheckLoadingStarted s).nextEntryId = s.nextEntryId := by
  obtain ⟨h1, h2, h3, h4, h5, h6, h7, h8, h9, h10, h11⟩ :=
    hasLoadingFontFaces_snd_fields s
  by_cases hb : (HasLoadingFontFaces s).1
  · by_cases hld : (HasLoadingFontFaces s).2.mStatus = .Loading
    · simp [CheckLoadingStarted, hb, hld, h2, h3, h7, h8, h9, h10, h11]
    · simp [CheckLoadingStarted, hb, hld, OnLoadingStarted, h2, h3, h7, h8,
        h9, h10, h11]
  · simp [CheckLoadingStarted, hb, h2, h3, h7, h8, h9, h10, h11]

theorem checkLoadingFinished_preserves (s : SetState) :
    (CheckLoadingFinished s).mNonRuleFaces = s.mNonRuleFaces ∧
    (CheckLoadingFinished s).faces = s.faces ∧
    (CheckLoadingFinished s).mNonRuleFacesDirty = s.mNonRuleFacesDirty ∧
    (CheckLoadingFinished s).userFontSetDirty = s.userFontSetDirty ∧
    (CheckLoadingFinished s).entries = s.entries ∧
    (CheckLoadingFinished s).families = s.families ∧
    (CheckLoadingFinished s).nextEntryId = s.nextEntryId := by
  obtain ⟨h1, h2, h3, h4, h5, h6, h7, h8, h9, h10, h11⟩ :=
    hasLoadingFontFaces_snd_fields s
  by_cases hdel : s.mDelayedLoadCheck
  · simp [CheckLoadingFinished, hdel]
  · by_cases hpen : s.ownerReadyPending
    · by_cases hb : (HasLoadingFontFaces s).1
      · simp [CheckLoadingFinished, MightHavePendingFontLoads, hdel, hpen,
          hb, h2, h3, h7, h8, h9, h10, h11]
      · simp [CheckLoadingFinished, MightHavePendingFontLoads, hdel, hpen,
          hb, OnLoadingFinished, h2, h3, h7, h8, h9, h10, h11]
    · simp only [Bool.not_eq_true] at hpen
      simp [CheckLoadingFinished, hdel, hpen]

/-- Claim C5: `Add` of an already-present face fails plainly and mutates
nothing; `Add` of a rule-derived face fails with the distinct
`InvalidModificationError` and mutates nothing; only otherwise does it
register membership, append the record, set the registry and both loading
dirty bits, and run the loading-started check. -/
theorem add_member_rule_and_success (fid : Nat) (s : SetState)
    (face : FontFaceData) (hface : alookup s.faces fid = some face)
    (hclean : s.userFontSetDirty = false) :
    (face.inFontFaceSet = true → Add fid s = ((false, none), s)) ∧
    (face.inFontFaceSet = false → face.hasRule = true →
        Add fid s = ((false, some .invalidModificationError), s)) ∧
    (face.inFontFaceSet = false → face.hasRule = false →
        Add fid s = ((true, none),
          CheckLoadingStarted
            { updateFace s fid (fun f => { f with inFontFaceSet := true }) with
              mNonRuleFaces := s.mNonRuleFaces ++ [fid]
              mNonRuleFacesDirty := true
              userFontSetDirty := true
              mHasLoadingFontFacesIsDirty := true })) := by
  have hfl : FlushUserFontSet s = s := by simp [FlushUserFontSet, hclean]
  refine ⟨?_, ?_, ?_⟩
  · intro hin
    simp [Add, hfl, hface, hin]
  · intro hin hrule
    simp [Add, hfl, hface, hin, hrule]
  · intro hin hrule
    simp only [Add, hfl, hface, hin, hrule, Bool.false_eq_true, if_false]
    rfl

/-- A face marked as already a member of the set. -/
def faceM : FontFaceData := { faceW with inFontFaceSet := true }

/-- A rule-derived face. -/
def faceR : FontFaceData := { faceW with hasRule := true }

/-- A clean state holding three candidate faces and no records. -/
def stateA : SetState :=
  { families := [], entries := [], nextEntryId := 0,
    faces := [(2, faceW), (3, faceR), (4, faceM)], mNonRuleFaces := [],
    mStatus := .Loaded, mNonRuleFacesDirty := false, userFontSetDirty := false,
    mHasLoadingFontFaces := false, mHasLoadingFontFacesIsDirty := false,
    mDelayedLoadCheck := false, ownerReadyPending := false,
    variationsEnabled := true, events := [] }

theorem add_member_rule_and_success_witness :
    (Add 2 stateA).1 = (true, none) ∧
    Add 3 stateA = ((false, some .invalidModificationError), stateA) ∧
    Add 4 stateA = ((false, none), stateA) := by
  have h2 := add_member_rule_and_success 2 stateA faceW rfl rfl
  have h3 := add_member_rule_and_success 3 stateA faceR rfl rfl
  have h4 := add_member_rule_and_success 4 stateA faceM rfl rfl
  exact ⟨by rw [h2.2.2 rfl rfl], h3.2.1 rfl rfl, h4.1 rfl⟩

/-- The face-detaching update `Clear` applies to every record. -/
def detachFace (f : FontFaceData) : FontFaceData :=
  { f with inFontFaceSet := false }

theorem foldl_detach_faces (L : List Nat) (s : SetState) (fid : Nat) :
    alookup (L.foldl (fun acc f2 => updateFace acc f2 detachFace) s).faces
      fid =
    if fid ∈ L then (alookup s.faces fid).map detachFace
    else alookup s.faces fid := by
  induction L generalizing s with
  | nil => simp
  | cons a L ih =>
      simp only [List.foldl_cons]
      rw [ih]
      by_cases ha : fid = a
      · subst ha
        have hself : alookup (updateFace s fid detachFace).faces fid
            = (alookup s.faces fid).map detachFace :=
          alookup_updateAssoc_self s.faces fid detachFace
        by_cases hmem : fid ∈ L
        · rw [if_pos hmem, if_pos (List.mem_cons_self _ _), hself,
            Option.map_map]
          have : detachFace ∘ detachFace = detachFace := by
            funext f
            rfl
          rw [this]
        · rw [if_neg hmem, if_pos (List.mem_cons_self _ _), hself]
      · have hother : alookup (updateFace s a detachFace).faces fid
            = alookup s.faces fid :=
          alookup_updateAssoc_ne s.faces a fid detachFace ha
        by_cases hmem : fid ∈ L
        · rw [if_pos hmem, if_pos (List.mem_cons_of_mem _ hmem), hother]
        · rw [if_neg hmem, if_neg (by simp [ha, hmem]), hother]

/-- Claim C8: on an empty record list `Clear` is the identity — no records
change, no dirty flag is set, no check runs and no notification is
dispatched; on a non-empty list it detaches every record's face, empties
the list, sets the registry and loading dirty bits, and hands the result to
the loading-finished check. -/
theorem clear_noop_and_detach (s : SetState)
    (hclean : s.userFontSetDirty = false) :
    (s.mNonRuleFaces = [] → Clear s = s) ∧
    (s.mNonRuleFaces ≠ [] →
        Clear s = CheckLoadingFinished
          { s.mNonRuleFaces.foldl (fun acc fid => updateFace acc fid
              detachFace) s with
            mNonRuleFaces := []
            mNonRuleFacesDirty := true
            userFontSetDirty := true
            mHasLoadingFontFacesIsDirty := true } ∧
        (Clear s).mNonRuleFaces = [] ∧
        (Clear s).mNonRuleFacesDirty = true ∧
        (Clear s).userFontSetDirty = true ∧
        (∀ fid ∈ s.mNonRuleFaces, ∀ f,
            alookup (Clear s).faces fid = some f →
            f.inFontFaceSet = false)) := by
  have hfl : FlushUserFontSet s = s := by simp [FlushUserFontSet, hclean]
  refine ⟨?_, ?_⟩
  · intro hemp
    simp [Clear, hfl, hemp]
  · intro hne
    have hne' : s.mNonRuleFaces.isEmpty = false := by
      cases h : s.mNonRuleFaces with
      | nil => exact absurd h hne
      | cons a L => rfl
    have heq : Clear s = CheckLoadingFinished
        { s.mNonRuleFaces.foldl (fun acc fid => updateFace acc fid
            detachFace) s with
          mNonRuleFaces := []
          mNonRuleFacesDirty := true
          userFontSetDirty := true
          mHasLoadingFontFacesIsDirty := true } := by
      simp only [Clear, hfl, hne', Bool.false_eq_true, if_false]
      rfl
    obtain ⟨hp1, hp2, hp3, hp4, hp5, hp6, hp7⟩ := checkLoadingFinished_preserves
      { s.mNonRuleFaces.foldl (fun acc fid => updateFace acc fid
          detachFace) s with
        mNonRuleFaces := []
        mNonRuleFacesDirty := true
        userFontSetDirty := true
        mHasLoadingFontFacesIsDirty := true }
    refine ⟨heq, by rw [heq]; exact hp1, by rw [heq]; exact hp3,
      by rw [heq]; exact hp4, ?_⟩
    intro fid hmem f hf
    rw [heq] at hf
    rw [hp2] at hf
    have : alookup (s.mNonRuleFaces.foldl (fun acc f2 => updateFace acc f2
        detachFace) s).faces fid = (alookup s.faces fid).map detachFace := by
      rw [foldl_detach_faces, if_pos hmem]
    rw [this] at hf
    cases halt : alookup s.faces fid with
    | none =>
        rw [halt] at hf
        exact absurd hf (by simp)
    | some f0 =>
        rw [halt] at hf
        have : detachFace f0 = f := by
          simpa using hf
        rw [← this]
        rfl

/-- A state with two records to clear, one face mid-load. -/
def stateC : SetState :=
  { families := [], entries := [], nextEntryId := 0,
    faces := [(1, faceM), (2, { faceM with status := .Loading })],
    mNonRuleFaces := [1, 2], mStatus := .Loading,
    mNonRuleFacesDirty := false, userFontSetDirty := false,
    mHasLoadingFontFaces := true, mHasLoadingFontFacesIsDirty := false,
    mDelayedLoadCheck := false, ownerReadyPending := true,
    variationsEnabled := true, events := [] }

/-- An empty clean state. -/
def stateE : SetState :=
  { families := [], entries := [], nextEntryId := 0,
    faces := [], mNonRuleFaces := [], mStatus := .Loaded,
    mNonRuleFacesDirty := false, userFontSetDirty := false,
    mHasLoadingFontFaces := false, mHasLoadingFontFacesIsDirty := false,
    mDelayedLoadCheck := false, ownerReadyPending := false,
    variationsEnabled := true, events := [] }

theorem clear_noop_and_detach_witness :
    Clear stateE = stateE ∧
    (Clear stateC).mNonRuleFaces = [] ∧
    (Clear stateC).userFontSetDirty = true ∧
    (∀ fid ∈ stateC.mNonRuleFaces, ∀ f,
        alookup (Clear stateC).faces fid = some f →
        f.inFontFaceSet = false) := by
  have hE := clear_noop_and_detach stateE rfl
  have hC := clear_noop_and_detach stateC rfl
  have hCne := hC.2 (by decide)
  exact ⟨hE.1 rfl, hCne.2.1, hCne.2.2.2.1, hCne.2.2.2.2⟩

/-! ## C6: Delete failure cases and the add/delete roundtrip

"Registry membership" is observed through `RebuildUserFontSet`: the
families map the registry folds to from the current records (what any
flushed reader sees).  The supporting lemmas show that, when every recorded
face already owns an entry, this fold is a pure function of the records'
(family, entry) pairs. -/

/-- The (family name, entry id) pair a recorded face contributes to the
rebuilt registry, when it has both. -/
def facePair (faces : List (Nat × FontFaceData)) (fid : Nat) :
    Option (String × Nat) :=
  match alookup faces fid with
  | none => none
  | some f =>
      match f.familyName, f.userFontEntry with
      | some fam, some eid => some (fam, eid)
      | _, _ => none

/-- Steady state: every recorded face with a family name already owns an
entry (what repeated flushes establish for resolvable faces). -/
def recordsEntried (s : SetState) : Prop :=
  ∀ fid ∈ s.mNonRuleFaces, ∀ f, alookup s.faces fid = some f →
    f.familyName = none ∨ f.userFontEntry ≠ none

theorem findOrCreate_preserves_faces (famName : String) (face : FontFaceData)
    (origin : StyleOrigin) (s : SetState) :
    (FindOrCreateUserFontEntryFromFontFace famName face origin s).2.faces
      = s.faces ∧
    (FindOrCreateUserFontEntryFromFontFace famName face origin
      s).2.mNonRuleFaces = s.mNonRuleFaces := by
  cases hue : face.userFontEntry with
  | some eid =>
      simp only [FindOrCreateUserFontEntryFromFontFace, hue]
      cases h1 : alookup (updateEntryAttributes eid (computeEntryAttributes
          face) s).entries eid with
      | none => exact ⟨rfl, rfl⟩
      | some ent =>
          dsimp only
          by_cases hcond : ent.mFamilyName ≠ "" ∧ ent.mFamilyName ≠ famName
          · rw [if_pos hcond]
            cases h2 : alookup (updateEntryAttributes eid
                (computeEntryAttributes face) s).families ent.mFamilyName with
            | none => exact ⟨rfl, rfl⟩
            | some l => exact ⟨rfl, rfl⟩
          · rw [if_neg hcond]
            exact ⟨rfl, rfl⟩
  | none =>
      simp only [FindOrCreateUserFontEntryFromFontFace, hue]
      by_cases hsrc : (if face.hasFontData then [bufferSrc]
          else buildSrcArray s.variationsEnabled origin face.sources).isEmpty
      · rw [if_pos hsrc]
        exact ⟨rfl, rfl⟩
      · rw [if_neg hsrc]
        exact ⟨rfl, rfl⟩

theorem insertNonRule_skeleton (t : SetState) (fid2 : Nat) :
    (InsertNonRuleFontFace t fid2).mNonRuleFaces = t.mNonRuleFaces ∧
    (∀ g, g ≠ fid2 →
        alookup (InsertNonRuleFontFace t fid2).faces g = alookup t.faces g) ∧
    (∀ f, alookup t.faces fid2 = some f →
        ∃ f2, alookup (InsertNonRuleFontFace t fid2).faces fid2 = some f2 ∧
          f2.hasRule = f.hasRule) := by
  cases hfa : alookup t.faces fid2 with
  | none =>
      refine ⟨by simp [InsertNonRuleFontFace, hfa], ?_, ?_⟩
      · intro g _
        simp [InsertNonRuleFontFace, hfa]
      · intro f hf
        exact absurd hf (by simp)
  | some f =>
      cases hfam : f.familyName with
      | none =>
          refine ⟨by simp [InsertNonRuleFontFace, hfa, hfam], ?_, ?_⟩
          · intro g _
            simp [InsertNonRuleFontFace, hfa, hfam]
          · intro f0 hf0
            cases hf0
            exact ⟨f, by simp [InsertNonRuleFontFace, hfa, hfam], rfl⟩
      | some fam =>
          cases hue : f.userFontEntry with
          | some eid =>
              refine ⟨by simp [InsertNonRuleFontFace, hfa, hfam, hue,
                addUserFontEntry], ?_, ?_⟩
              · intro g _
                simp [InsertNonRuleFontFace, hfa, hfam, hue, addUserFontEntry]
              · intro f0 hf0
                cases hf0
                exact ⟨f, by simp [InsertNonRuleFontFace, hfa, hfam, hue,
                  addUserFontEntry, hfa], rfl⟩
          | none =>
              have hpf := findOrCreate_preserves_faces fam f .Author t
              rcases hfc : FindOrCreateUserFontEntryFromFontFace fam f .Author
                  t with ⟨oe, s1⟩
              rw [hfc] at hpf
              have hpf1 : s1.faces = t.faces := hpf.1
              have hpf2 : s1.mNonRuleFaces = t.mNonRuleFaces := hpf.2
              cases oe with
              | none =>
                  refine ⟨by simp [InsertNonRuleFontFace, hfa, hfam, hue, hfc,
                    hpf2], ?_, ?_⟩
                  · intro g _
                    simp [InsertNonRuleFontFace, hfa, hfam, hue, hfc, hpf1]
                  · intro f0 hf0
                    cases hf0
                    refine ⟨f, ?_, rfl⟩
                    simp only [InsertNonRuleFontFace, hfa, hfam, hue, hfc]
                    rw [hpf1]
                    exact hfa
              | some eid =>
                  have hrec : (InsertNonRuleFontFace t fid2) =
                      addUserFontEntry fam eid
                        (updateFace s1 fid2 fun f =>
                          { f with userFontEntry := some eid }) := by
                    simp [InsertNonRuleFontFace, hfa, hfam, hue, hfc]
                  refine ⟨?_, ?_, ?_⟩
                  · rw [hrec]
                    simp [addUserFontEntry, updateFace, hpf2]
                  · intro g hg
                    rw [hrec]
                    show alookup (updateAssoc s1.faces fid2 _) g
                        = alookup t.faces g
                    rw [alookup_updateAssoc_ne _ _ _ _ hg, hpf1]
                  · intro f0 hf0
                    cases hf0
                    rw [hrec]
                    refine ⟨{ f with userFontEntry := some eid }, ?_, rfl⟩
                    show alookup (updateAssoc s1.faces fid2 _) fid2 = _
                    rw [alookup_updateAssoc_self, hpf1, hfa]
                    rfl

/-- Folding `InsertNonRuleFontFace` over records whose faces already own
entries leaves the face environment and record list alone and folds the
families map purely over the records' (family, entry) pairs. -/
theorem foldl_insert_spec (L : List Nat) (t : SetState)
    (hH : ∀ fid ∈ L, ∀ f, alookup t.faces fid = some f →
        f.familyName = none ∨ f.userFontEntry ≠ none) :
    (L.foldl InsertNonRuleFontFace t).faces = t.faces ∧
    (L.foldl InsertNonRuleFontFace t).mNonRuleFaces = t.mNonRuleFaces ∧
    (L.foldl InsertNonRuleFontFace t).families =
      (L.filterMap (facePair t.faces)).foldl
        (fun fams p => addFontEntryToFamily fams p.1 p.2) t.families := by
  induction L generalizing t with
  | nil => exact ⟨rfl, rfl, rfl⟩
  | cons a L ih =>
      cases hfa : alookup t.faces a with
      | none =>
          have hins : InsertNonRuleFontFace t a = t := by
            simp [InsertNonRuleFontFace, hfa]
          have hp : facePair t.faces a = none := by simp [facePair, hfa]
          rw [List.foldl_cons, hins, List.filterMap_cons_none hp]
          exact ih t fun fid hm => hH fid (List.mem_cons_of_mem _ hm)
      | some f =>
          cases hfam : f.familyName with
          | none =>
              have hins : InsertNonRuleFontFace t a = t := by
                simp [InsertNonRuleFontFace, hfa, hfam]
              have hp : facePair t.faces a = none := by
                simp [facePair, hfa, hfam]
              rw [List.foldl_cons, hins, List.filterMap_cons_none hp]
              exact ih t fun fid hm => hH fid (List.mem_cons_of_mem _ hm)
          | some fam =>
              cases hue : f.userFontEntry with
              | none =>
                  rcases hH a (List.mem_cons_self _ _) f hfa with h | h
                  · rw [hfam] at h
                    cases h
                  · exact absurd hue h
              | some eid =>
                  have hins : InsertNonRuleFontFace t a =
                      addUserFontEntry fam eid t := by
                    simp [InsertNonRuleFontFace, hfa, hfam, hue]
                  have hp : facePair t.faces a = some (fam, eid) := by
                    simp [facePair, hfa, hfam, hue]
                  have hfaces : (addUserFontEntry fam eid t).faces = t.faces :=
                    rfl
                  obtain ⟨i1, i2, i3⟩ := ih (addUserFontEntry fam eid t)
                    (fun fid hm f0 hf0 =>
                      hH fid (List.mem_cons_of_mem _ hm) f0 (by
                        rw [hfaces] at hf0
                        exact hf0))
                  rw [List.foldl_cons, hins, List.filterMap_cons_some hp,
                    List.foldl_cons]
                  refine ⟨by rw [i1, hfaces], by rw [i2]; rfl, ?_⟩
                  rw [i3, hfaces]
                  rfl

/-- The contributed pairs only depend on the face lookups of the records. -/
theorem filterMap_facePair_congr (L : List Nat)
    (faces1 faces2 : List (Nat × FontFaceData))
    (hag : ∀ fid ∈ L, alookup faces1 fid = alookup faces2 fid) :
    L.filterMap (facePair faces1) = L.filterMap (facePair faces2) := by
  induction L with
  | nil => rfl
  | cons a L ih =>
      have h1 : facePair faces1 a = facePair faces2 a := by
        simp only [facePair, hag a (List.mem_cons_self _ _)]
      rw [List.filterMap_cons, List.filterMap_cons, h1,
        ih fun fid hm => hag fid (List.mem_cons_of_mem _ hm)]

theorem erase_append_self (l : List Nat) (a : Nat) (h : a ∉ l) :
    (l ++ [a]).erase a = l := by
  induction l with
  | nil => simp
  | cons b l ih =>
      have hne : a ≠ b := fun hab => h (hab ▸ List.mem_cons_self b l)
      have h2 : a ∉ l := fun hm => h (List.mem_cons_of_mem _ hm)
      have hba : (b == a) = false :=
        beq_eq_false_iff_ne.mpr fun hb => hne hb.symm
      simp [List.erase_cons, hba, ih h2]

/-- The `Delete` on a present, non-rule face, written out as an equation. -/
theorem delete_present_spec (u : SetState) (fid : Nat) (f : FontFaceData)
    (hf : alookup (FlushUserFontSet u).faces fid = some f)
    (hrule : f.hasRule = false)
    (hmem : fid ∈ (FlushUserFontSet u).mNonRuleFaces) :
    Delete fid u = (true,
      CheckLoadingFinished
        { updateFace { FlushUserFontSet u with
            mNonRuleFaces := (FlushUserFontSet u).mNonRuleFaces.erase fid } fid
            (fun f => { f with inFontFaceSet := false }) with
          mNonRuleFacesDirty := true
          userFontSetDirty := true
          mHasLoadingFontFacesIsDirty := true }) := by
  simp only [Delete, hf, hrule, Bool.false_eq_true, if_false, hmem, if_true]

/-- Claim C6: `Delete` of a rule-derived face, or of a face with no record,
fails and mutates nothing; after a successful `Add`, an immediate `Delete`
of the same face succeeds, restores the record list exactly, and restores
registry membership: the families map the registry rebuilds to from the
resulting state equals the one it rebuilds to from the original state.
Both calls return success. -/
theorem delete_failures_and_add_delete_roundtrip (fid : Nat) (s : SetState)
    (face : FontFaceData) (hface : alookup s.faces fid = some face)
    (hclean : s.userFontSetDirty = false) :
    (face.hasRule = true → Delete fid s = (false, s)) ∧
    (face.hasRule = false → fid ∉ s.mNonRuleFaces → Delete fid s = (false, s)) ∧
    (face.inFontFaceSet = false → face.hasRule = false →
     fid ∉ s.mNonRuleFaces → recordsEntried s →
        (Add fid s).1 = (true, none) ∧
        (Delete fid (Add fid s).2).1 = true ∧
        (Delete fid (Add fid s).2).2.mNonRuleFaces = s.mNonRuleFaces ∧
        (RebuildUserFontSet (Delete fid (Add fid s).2).2).families =
          (RebuildUserFontSet s).families) := by
  have hfl : FlushUserFontSet s = s := by simp [FlushUserFontSet, hclean]
  refine ⟨?_, ?_, ?_⟩
  · intro hrule
    simp [Delete, hfl, hface, hrule]
  · intro hrule hnm
    simp [Delete, hfl, hface, hrule, hnm]
  · intro hin hrule hnm hH
    set s2 : SetState :=
      { updateFace s fid (fun f => { f with inFontFaceSet := true }) with
        mNonRuleFaces := s.mNonRuleFaces ++ [fid]
        mNonRuleFacesDirty := true
        userFontSetDirty := true
        mHasLoadingFontFacesIsDirty := true } with hs2def
    have hadd : Add fid s = ((true, none), CheckLoadingStarted s2) := by
      rw [hs2def]
      simp only [Add, hfl, hface, hin, hrule, Bool.false_eq_true, if_false]
      rfl
    set sA := CheckLoadingStarted s2 with hsAdef
    obtain ⟨c1, c2, c3, c4, c5, c6, c7⟩ := checkLoadingStarted_preserves s2
    have hArec : sA.mNonRuleFaces = s.mNonRuleFaces ++ [fid] := c1
    have hAfaces : sA.faces =
        updateAssoc s.faces fid (fun f => { f with inFontFaceSet := true }) :=
      c2
    have hAdirty : sA.userFontSetDirty = true := c4
    have hflA : FlushUserFontSet sA =
        { RebuildUserFontSet sA with userFontSetDirty := false
                                     mNonRuleFacesDirty := false } := by
      simp [FlushUserFontSet, hAdirty]
    set t0 : SetState := { sA with families := [] } with ht0def
    have ht0faces : t0.faces =
        updateAssoc s.faces fid (fun f => { f with inFontFaceSet := true }) :=
      hAfaces
    have ht0rec : t0.mNonRuleFaces = s.mNonRuleFaces ++ [fid] := hArec
    set t1 := s.mNonRuleFaces.foldl InsertNonRuleFontFace t0 with ht1def
    have hreb : RebuildUserFontSet sA = InsertNonRuleFontFace t1 fid := by
      show sA.mNonRuleFaces.foldl InsertNonRuleFontFace t0 = _
      rw [hArec, List.foldl_append]
      rfl
    have hHt0 : ∀ g ∈ s.mNonRuleFaces, ∀ f, alookup t0.faces g = some f →
        f.familyName = none ∨ f.userFontEntry ≠ none := by
      intro g hg f hf
      have hgne : g ≠ fid := fun hgf => hnm (hgf ▸ hg)
      rw [ht0faces, alookup_updateAssoc_ne _ _ _ _ hgne] at hf
      exact hH g hg f hf
    obtain ⟨f1, f2, f3⟩ := foldl_insert_spec s.mNonRuleFaces t0 hHt0
    obtain ⟨k1, k2, k3⟩ := insertNonRule_skeleton t1 fid
    have ht1fid : alookup t1.faces fid =
        some { face with inFontFaceSet := true } := by
      rw [ht1def, f1, ht0faces, alookup_updateAssoc_self, hface]
      rfl
    obtain ⟨fD, hfD, hfDrule⟩ := k3 _ ht1fid
    have hfDrule2 : fD.hasRule = false := by
      rw [hfDrule]
      exact hrule
    have hfl2 : (FlushUserFontSet sA).faces =
        (InsertNonRuleFontFace t1 fid).faces := by
      rw [hflA]
      show (RebuildUserFontSet sA).faces = _
      rw [hreb]
    have hfl3 : (FlushUserFontSet sA).mNonRuleFaces =
        s.mNonRuleFaces ++ [fid] := by
      rw [hflA]
      show (RebuildUserFontSet sA).mNonRuleFaces = _
      rw [hreb, k1, ht1def, f2, ht0rec]
    have hdel := delete_present_spec sA fid fD
      (by rw [hfl2]; exact hfD) hfDrule2
      (by rw [hfl3]; exact List.mem_append_right _ (by simp))
    set Rrec : SetState :=
      { updateFace { FlushUserFontSet sA with
          mNonRuleFaces := (FlushUserFontSet sA).mNonRuleFaces.erase fid } fid
          (fun f => { f with inFontFaceSet := false }) with
        mNonRuleFacesDirty := true
        userFontSetDirty := true
        mHasLoadingFontFacesIsDirty := true } with hRrecdef
    obtain ⟨d1, d2, d3, d4, d5, d6, d7⟩ := checkLoadingFinished_preserves Rrec
    have hrecD : (CheckLoadingFinished Rrec).mNonRuleFaces =
        s.mNonRuleFaces := by
      rw [d1]
      show (FlushUserFontSet sA).mNonRuleFaces.erase fid = s.mNonRuleFaces
      rw [hfl3]
      exact erase_append_self _ _ hnm
    have hsDfaces : (CheckLoadingFinished Rrec).faces =
        updateAssoc (InsertNonRuleFontFace t1 fid).faces fid
          (fun f => { f with inFontFaceSet := false }) := by
      rw [d2]
      show updateAssoc (FlushUserFontSet sA).faces fid _ = _
      rw [hfl2]
    have hagree : ∀ g ∈ s.mNonRuleFaces,
        alookup (CheckLoadingFinished Rrec).faces g = alookup s.faces g := by
      intro g hg
      have hgne : g ≠ fid := fun hgf => hnm (hgf ▸ hg)
      rw [hsDfaces, alookup_updateAssoc_ne _ _ _ _ hgne, k2 g hgne, ht1def,
        f1, ht0faces, alookup_updateAssoc_ne _ _ _ _ hgne]
    have hHD : ∀ g ∈ s.mNonRuleFaces, ∀ f,
        alookup ({ CheckLoadingFinished Rrec with
          families := ([] : List (String × List Nat)) }).faces g = some f →
        f.familyName = none ∨ f.userFontEntry ≠ none := by
      intro g hg f hf
      have hface2 : alookup (CheckLoadingFinished Rrec).faces g = some f := hf
      rw [hagree g hg] at hface2
      exact hH g hg f hface2
    have hrebD : (RebuildUserFontSet (CheckLoadingFinished Rrec)).families =
        (s.mNonRuleFaces.filterMap
          (facePair (CheckLoadingFinished Rrec).faces)).foldl
          (fun fams p => addFontEntryToFamily fams p.1 p.2) [] := by
      show ((CheckLoadingFinished Rrec).mNonRuleFaces.foldl
        InsertNonRuleFontFace
        { CheckLoadingFinished Rrec with families := [] }).families = _
      rw [hrecD]
      exact (foldl_insert_spec s.mNonRuleFaces _ hHD).2.2
    have hrebS : (RebuildUserFontSet s).families =
        (s.mNonRuleFaces.filterMap (facePair s.faces)).foldl
          (fun fams p => addFontEntryToFamily fams p.1 p.2) [] := by
      show ((s.mNonRuleFaces.foldl InsertNonRuleFontFace
        { s with families := [] })).families = _
      exact (foldl_insert_spec s.mNonRuleFaces { s with families := [] }
        (fun g hg f hf => hH g hg f hf)).2.2
    refine ⟨by rw [hadd], ?_, ?_, ?_⟩
    · rw [hadd]
      show (Delete fid sA).1 = true
      rw [hdel]
    · rw [hadd]
      show (Delete fid sA).2.mNonRuleFaces = s.mNonRuleFaces
      rw [hdel]
      exact hrecD
    · rw [hadd]
      show (RebuildUserFontSet (Delete fid sA).2).families =
        (RebuildUserFontSet s).families
      rw [hdel]
      show (RebuildUserFontSet (CheckLoadingFinished Rrec)).families = _
      rw [hrebD, hrebS,
        filterMap_facePair_congr s.mNonRuleFaces _ _ hagree]

/-- A fresh face with a local source and no entry yet. -/
def faceNew : FontFaceData :=
  { faceW with userFontEntry := none, sources := [.Local "y"] }

/-- The `stateW` plus the fresh face 5 and a rule-derived face 6. -/
def stateR : SetState :=
  { stateW with faces := [(1, faceW), (5, faceNew), (6, faceR)] }

theorem delete_failures_and_add_delete_roundtrip_witness :
    Delete 6 stateR = (false, stateR) ∧
    Delete 5 stateR = (false, stateR) ∧
    (Add 5 stateR).1 = (true, none) ∧
    (Delete 5 (Add 5 stateR).2).1 = true ∧
    (Delete 5 (Add 5 stateR).2).2.mNonRuleFaces = stateR.mNonRuleFaces ∧
    (RebuildUserFontSet (Delete 5 (Add 5 stateR).2).2).families =
      (RebuildUserFontSet stateR).families := by
  have h5 := delete_failures_and_add_delete_roundtrip 5 stateR faceNew rfl rfl
  have h6 := delete_failures_and_add_delete_roundtrip 6 stateR faceR rfl rfl
  have hH : recordsEntried stateR := by
    intro fid hm f hf
    have h1 : fid = 1 := by simpa [stateR, stateW] using hm
    subst h1
    have hf2 : some faceW = some f := hf
    cases hf2
    right
    simp [faceW]
  have hr := h5.2.2 rfl rfl (by decide) hH
  exact ⟨h6.1 rfl, h5.2.1 rfl (by decide), hr.1, hr.2.1, hr.2.2.1, hr.2.2.2⟩

/-! ## C4: the matching engine -/

theorem filterMap_sublist_of_imp {α β : Type} (l : List α) (g h : α → Option β)
    (himp : ∀ a b, g a = some b → h a = some b) :
    (l.filterMap g).Sublist (l.filterMap h) := by
  induction l with
  | nil => simp
  | cons a l ih =>
      rw [List.filterMap_cons, List.filterMap_cons]
      cases hg : g a with
      | none =>
          cases hh : h a with
          | none => exact ih
          | some b => exact ih.cons b
      | some b =>
          rw [himp a b hg]
          exact ih.cons₂ b

/-- Claim C4: an owner is in the result exactly when some non-rule record's
face carries it and some named family of the parsed list holds a
style-matching entry whose unicode range covers a codepoint of the text and
which lists that owner; the range test is a per-codepoint OR
(`HasAnyCharacterInUnicodeRange` is true exactly when one codepoint of the
text lies in range); the result follows the records' original declaration
order (it is a sublist of the records' owner projection) and, when the
records' owners are duplicate-free, so is the result. -/
theorem findMatchingFontFaces_spec (s : SetState)
    (fams : List SingleFontFamily) (q : FontStyleQuery) (text : List Nat) :
    (∀ o, o ∈ FindMatchingFontFaces s fams q text ↔
       ((∃ fid ∈ s.mNonRuleFaces, ∃ f, alookup s.faces fid = some f ∧
           f.owner = some o) ∧
        (∃ name, SingleFontFamily.FamilyName name ∈ fams ∧
           ∃ eids, alookup s.families name = some eids ∧
           ∃ eid ∈ eids, ∃ e, alookup s.entries eid = some e ∧
             styleMatches q e.attrs = true ∧
             HasAnyCharacterInUnicodeRange e.attrs.unicodeRanges text = true ∧
             o ∈ e.owners))) ∧
    (∀ ranges, HasAnyCharacterInUnicodeRange ranges text = true ↔
       ∃ c ∈ text, CharacterInUnicodeRange ranges c = true) ∧
    (FindMatchingFontFaces s fams q text).Sublist
      (s.mNonRuleFaces.filterMap fun fid =>
        (alookup s.faces fid).bind fun f => f.owner) ∧
    ((s.mNonRuleFaces.filterMap fun fid =>
        (alookup s.faces fid).bind fun f => f.owner).Nodup →
      (FindMatchingFontFaces s fams q text).Nodup) := by
  have hcontrib : ∀ (o : Nat) (fam : SingleFontFamily),
      o ∈ familyMatchContrib s q text fam ↔
      ∃ name, fam = SingleFontFamily.FamilyName name ∧
        ∃ eids, alookup s.families name = some eids ∧
        ∃ eid ∈ eids, ∃ e, alookup s.entries eid = some e ∧
          styleMatches q e.attrs = true ∧
          HasAnyCharacterInUnicodeRange e.attrs.unicodeRanges text = true ∧
          o ∈ e.owners := by
    intro o fam
    cases fam with
    | Generic g => simp [familyMatchContrib]
    | FamilyName name =>
        cases hl : alookup s.families name with
        | none =>
            simp only [familyMatchContrib, hl]
            simp only [List.not_mem_nil, false_iff]
            rintro ⟨name2, hname2, eids2, heids2, -⟩
            cases hname2
            rw [hl] at heids2
            cases heids2
        | some eids =>
            simp only [familyMatchContrib, hl, List.mem_flatMap,
              FindAllFontsForStyle, List.mem_filter, List.mem_filterMap]
            constructor
            · rintro ⟨e, ⟨⟨eid, heid, he⟩, hstyle⟩, ho⟩
              by_cases hany :
                  HasAnyCharacterInUnicodeRange e.attrs.unicodeRanges text
              · rw [if_pos hany] at ho
                exact ⟨name, rfl, eids, hl, eid, heid, e, he, hstyle, hany, ho⟩
              · rw [if_neg hany] at ho
                exact absurd ho (List.not_mem_nil o)
            · rintro ⟨name2, hname2, eids2, heids2, eid, heid, e, he, hstyle,
                hany, ho⟩
              cases hname2
              rw [hl] at heids2
              cases heids2
              exact ⟨e, ⟨⟨eid, heid, he⟩, hstyle⟩, by rw [if_pos hany]; exact ho⟩
  have hcollect : ∀ o, o ∈ collectMatchingFaces s fams q text ↔
      ∃ name, SingleFontFamily.FamilyName name ∈ fams ∧
        ∃ eids, alookup s.families name = some eids ∧
        ∃ eid ∈ eids, ∃ e, alookup s.entries eid = some e ∧
          styleMatches q e.attrs = true ∧
          HasAnyCharacterInUnicodeRange e.attrs.unicodeRanges text = true ∧
          o ∈ e.owners := by
    intro o
    simp only [collectMatchingFaces, List.mem_flatMap]
    constructor
    · rintro ⟨fam, hfam, ho⟩
      rcases (hcontrib o fam).mp ho with ⟨name, rfl, rest⟩
      exact ⟨name, hfam, rest⟩
    · rintro ⟨name, hfam, rest⟩
      exact ⟨.FamilyName name, hfam, (hcontrib o _).mpr ⟨name, rfl, rest⟩⟩
  have hres : ∀ o, o ∈ FindMatchingFontFaces s fams q text ↔
      (∃ fid ∈ s.mNonRuleFaces, ∃ f, alookup s.faces fid = some f ∧
        f.owner = some o) ∧ o ∈ collectMatchingFaces s fams q text := by
    intro o
    simp only [FindMatchingFontFaces, List.mem_filterMap]
    constructor
    · rintro ⟨fid, hfid, hsome⟩
      cases hf : alookup s.faces fid with
      | none =>
          rw [hf] at hsome
          exact absurd hsome (by simp)
      | some f =>
          rw [hf] at hsome
          dsimp only at hsome
          cases hown : f.owner with
          | none =>
              rw [hown] at hsome
              exact absurd hsome (by simp)
          | some o2 =>
              rw [hown] at hsome
              dsimp only at hsome
              by_cases hin : o2 ∈ collectMatchingFaces s fams q text
              · have hsome2 : some o2 = some o := by
                  rw [← hsome]
                  simp [hin]
                cases hsome2
                exact ⟨⟨fid, hfid, f, hf, hown⟩, hin⟩
              · have hsome2 : (none : Option Nat) = some o := by
                  rw [← hsome]
                  simp [hin]
                exact absurd hsome2 (by simp)
    · rintro ⟨⟨fid, hfid, f, hf, hown⟩, hin⟩
      refine ⟨fid, hfid, ?_⟩
      rw [hf]
      dsimp only
      rw [hown]
      dsimp only
      simp [hin]
  have hsub : (FindMatchingFontFaces s fams q text).Sublist
      (s.mNonRuleFaces.filterMap fun fid =>
        (alookup s.faces fid).bind fun f => f.owner) := by
    refine filterMap_sublist_of_imp s.mNonRuleFaces _ _ ?_
    intro fid o hsome
    cases hf : alookup s.faces fid with
    | none =>
        rw [hf] at hsome
        exact absurd hsome (by simp)
    | some f =>
        rw [hf] at hsome
        dsimp only at hsome
        cases hown : f.owner with
        | none =>
            rw [hown] at hsome
            exact absurd hsome (by simp)
        | some o2 =>
            rw [hown] at hsome
            dsimp only at hsome
            show f.owner = some o
            rw [hown]
            by_cases hin : o2 ∈ collectMatchingFaces s fams q text
            · rw [← hsome]
              simp [hin]
            · have : (none : Option Nat) = some o := by
                rw [← hsome]
                simp [hin]
              exact absurd this (by simp)
  refine ⟨?_, ?_, hsub, fun hnd => hsub.nodup hnd⟩
  · intro o
    rw [hres o, hcollect o]
  · intro ranges
    simp [HasAnyCharacterInUnicodeRange, List.any_eq_true]

/-- A face declaring family "A", weight 400, unicode-range U+0041-005A,
owned by wrapper 7. -/
def faceM1 : FontFaceData :=
  { familyName := some "A", hasRule := false, status := .Loaded,
    owner := some 7, userFontEntry := some 0, inFontFaceSet := true,
    hasFontData := false, sources := [], fontWeight := some (400, 400),
    fontStretch := some (100, 100), fontStyle := some .Normal,
    fontDisplay := none, ascentOverride := none, descentOverride := none,
    lineGapOverride := none, sizeAdjust := none, featureSettings := [],
    variationSettings := [], languageOverride := none,
    unicodeRange := some [(65, 90)] }

/-- The entry `faceM1` resolves to. -/
def entM : UserFontEntry :=
  { attrs := computeEntryAttributes faceM1, srcList := [localSrc "x"],
    mFamilyName := "A", owners := [7] }

/-- Registry `{"A": [entM]}` with one record. -/
def stateM : SetState :=
  { families := [("A", [0])], entries := [(0, entM)], nextEntryId := 1,
    faces := [(1, faceM1)], mNonRuleFaces := [1], mStatus := .Loaded,
    mNonRuleFacesDirty := false, userFontSetDirty := false,
    mHasLoadingFontFaces := false, mHasLoadingFontFacesIsDirty := false,
    mDelayedLoadCheck := false, ownerReadyPending := false,
    variationsEnabled := true, events := [] }

/-- Witness: "Hello" (contains `H` = U+0048) matches the one face, "hello"
matches nothing, and the nodup conclusion holds at this state. -/
theorem findMatchingFontFaces_spec_witness :
    FindMatchingFontFaces stateM [.FamilyName "A"] ⟨400, 100, .normal⟩
      [72, 101, 108, 108, 111] = [7] ∧
    FindMatchingFontFaces stateM [.FamilyName "A"] ⟨400, 100, .normal⟩
      [104, 101, 108, 108, 111] = [] ∧
    (FindMatchingFontFaces stateM [.FamilyName "A"] ⟨400, 100, .normal⟩
      [72, 101, 108, 108, 111]).Nodup := by
  have h := findMatchingFontFaces_spec stateM [.FamilyName "A"]
    ⟨400, 100, .normal⟩ [72, 101, 108, 108, 111]
  exact ⟨by decide, by decide, h.2.2.2 (by decide)⟩

/-- Witness for the source-list builder at concrete token streams,
discharging the not-followed-by-tech-flags side conditions. -/
theorem source_list_builder_spec_witness :
    buildSrcArray true .Author [.Url (some 1), .FormatHintKeyword .Woff2] =
      [urlSrc .Author 1 .Woff2 TechFlags.empty] ∧
    buildSrcArray true .Author
      (.Url none :: .FormatHintKeyword .Woff2 :: [.Local "n"]) =
      buildSrcArray true .Author [.Local "n"] ∧
    buildSrcArray true .Author
      (.Url none :: .FormatHintString "woff" :: [.Local "n"]) =
      buildSrcArray true .Author [.Local "n"] ∧
    buildSrcArray true .Author
      (.Url none :: .FormatHintKeyword .Woff2 :: .TechFlagsToken 3 ::
        [.Local "n"]) =
      buildSrcArray true .Author [.Local "n"] := by
  have h := source_list_builder_spec true .Author
  refine ⟨h.1 1, ?_, ?_, h.2.2.2.2.2.2.2.2.2.1 .Woff2 3 [.Local "n"]⟩
  · refine h.2.2.2.2.2.2.2.2.1 .Woff2 [.Local "n"] ?_
    intro t rs h2
    simp at h2
  · refine h.2.2.2.2.2.2.2.2.2.2.1 "woff" [.Local "n"] ?_
    intro t rs h2
    simp at h2

end FontFaceSet
